import Mathlib

/-!
Verification of the nw-ota Bundle Update Engine (`src/index.ts`).

The filesystem is modelled flatly: a path is its list of segments, and a
filesystem state is the list of existing directories plus the list of files
(path, data).  Every operation of the source that the claims depend on is
translated into a pure function on this state; operations that can fail in
the source return the error alongside the state reached.  Failures of the
underlying filesystem primitives are injected through explicit fault
parameters; a fault carries the error raised and the (partial) state the
primitive left behind.
-/

namespace NwOta

abbrev Path := List String

/-- Contents of a file.  `pkg o r` models a parseable `package.json` whose
`ota` field is `o` (`none` when the field is absent or not a number) and whose
other fields are abstracted by `r`; `raw n` models any other file (including
an unparseable `package.json`). -/
inductive FileData where
  | raw : Nat → FileData
  | pkg : Option Int → Nat → FileData
deriving DecidableEq, Repr

/-- A flat filesystem state: the set of existing directories and the set of
files, both as lists. -/
structure FS where
  dirs : List Path
  files : List (Path × FileData)
deriving DecidableEq, Repr

/-- `fs.existsSync p` — `fs.existsSync` of the source: a node of either kind
exists at `p`. -/
def FS.existsSync (fs : FS) (p : Path) : Bool :=
  fs.dirs.contains p || fs.files.any (fun f => f.1 == p)

/-- Effect of a successful `removePath` (src/index.ts lines 74-109): the node
at `p` and everything beneath it disappears. -/
def FS.rmTree (fs : FS) (p : Path) : FS :=
  ⟨fs.dirs.filter (fun d => !p.isPrefixOf d),
   fs.files.filter (fun f => !p.isPrefixOf f.1)⟩

/-- `removeDirectoryContents` (lines 114-131): removes every entry inside the
directory `p` but keeps `p` itself; a no-op when `p` is absent or is not a
directory. -/
def FS.clearContents (fs : FS) (p : Path) : FS :=
  if fs.dirs.contains p then
    ⟨fs.dirs.filter (fun d => !(p.isPrefixOf d && d != p)),
     fs.files.filter (fun f => !(p.isPrefixOf f.1 && f.1 != p))⟩
  else fs

/-- `fs.mkdirSync(p, { recursive: true })`: creates `p` and any missing
ancestor directories. -/
def FS.mkdirRec (fs : FS) (p : Path) : FS :=
  ⟨fs.dirs ++ p.inits.filter (fun q => !fs.dirs.contains q), fs.files⟩

/-- The files of `files` lying at or below `src`, re-rooted below `dst`. -/
def rerootFiles (src dst : Path) (files : List (Path × FileData)) :
    List (Path × FileData) :=
  (files.filter (fun f => src.isPrefixOf f.1)).map
    (fun f => (dst ++ f.1.drop src.length, f.2))

/-- The directories of `dirs` lying at or below `src`, re-rooted below `dst`. -/
def rerootDirs (src dst : Path) (dirs : List Path) : List Path :=
  (dirs.filter (fun d => src.isPrefixOf d)).map
    (fun d => dst ++ d.drop src.length)

/-- An error value as raised by Node's fs layer or constructed by the source. -/
structure JsError where
  code : String
  message : String
deriving DecidableEq, Repr

def enoentErr : JsError := ⟨"ENOENT", "no such file or directory"⟩

def enotdirErr : JsError := ⟨"ENOTDIR", "not a directory"⟩

/-- `copyDirectory` (lines 137-159): creates `dst` when absent, then mirrors
every file and subdirectory of `src` into `dst` — additive and overwriting,
never deleting unrelated entries of `dst`.  Listing the entries of `src`
fails when `src` is missing or is a plain file; the `mkdir` of `dst` has
already happened at that point. -/
def FS.copyDir (fs : FS) (src dst : Path) : FS × Option JsError :=
  let fs1 : FS := if fs.existsSync dst then fs else fs.mkdirRec dst
  if fs.dirs.contains src then
    let nf := rerootFiles src dst fs.files
    let nd := rerootDirs src dst fs.dirs
    (⟨fs1.dirs ++ nd.filter (fun d => !fs1.dirs.contains d),
      fs1.files.filter (fun f => !nf.any (fun g => g.1 == f.1)) ++ nf⟩, none)
  else if fs.files.any (fun f => f.1 == src) then (fs1, some enotdirErr)
  else (fs1, some enoentErr)

/-- `fs.writeFileSync`: overwrites the file at `p` or creates it. -/
def FS.writeFile (fs : FS) (p : Path) (d : FileData) : FS :=
  if fs.files.any (fun f => f.1 == p) then
    ⟨fs.dirs, fs.files.map (fun f => if f.1 == p then (p, d) else f)⟩
  else ⟨fs.dirs, fs.files ++ [(p, d)]⟩

def FS.lookupFile (fs : FS) (p : Path) : Option FileData :=
  (fs.files.find? (fun f => f.1 == p)).map (fun f => f.2)

/-- The files at or below `p`. -/
def FS.filesUnder (fs : FS) (p : Path) : List (Path × FileData) :=
  fs.files.filter (fun f => p.isPrefixOf f.1)

/-- The directories at or below `p`. -/
def FS.dirsUnder (fs : FS) (p : Path) : List Path :=
  fs.dirs.filter (fun d => p.isPrefixOf d)

/-- `fs.readdirSync(p)`-style listing of the distinct entry names directly
inside `p`. -/
def childNames (fs : FS) (p : Path) : List String :=
  ((fs.dirs.filterMap
      (fun d => if p.isPrefixOf d then (d.drop p.length).head? else none)) ++
   (fs.files.filterMap
      (fun f => if p.isPrefixOf f.1 then (f.1.drop p.length).head? else none))).dedup

/-- `_findBundleSource` (lines 544-559): when the unpacked directory holds
exactly one entry and that entry is a directory, that directory is the bundle
source; otherwise the unpacked directory itself is. -/
def findBundleSource (fs : FS) (unpacked : Path) : Path :=
  match childNames fs unpacked with
  | [n] =>
    if fs.dirs.contains (unpacked ++ [n]) then unpacked ++ [n] else unpacked
  | _ => unpacked

/-- `_getSavedVersion` (lines 749-777): the `ota` number of the bundle's
`package.json`, defaulting to 0 when the file is absent, unparseable or has
no numeric `ota` field. -/
def getSavedVersion (fs : FS) (bundlePath : Path) : Int :=
  match fs.lookupFile (bundlePath ++ ["package.json"]) with
  | some (.pkg (some v) _) => v
  | _ => 0

/-- `_saveVersion` (lines 782-820): reads the existing `package.json` (starting
fresh when absent or unparseable), sets its `ota` field and writes it back.
All errors are caught inside the source function, so it never raises. -/
def saveVersion (fs : FS) (bundlePath : Path) (v : Int) : FS :=
  match fs.lookupFile (bundlePath ++ ["package.json"]) with
  | some (.pkg _ r) => fs.writeFile (bundlePath ++ ["package.json"]) (.pkg (some v) r)
  | _ => fs.writeFile (bundlePath ++ ["package.json"]) (.pkg (some v) 0)

/-! ### The retrying remover `removePath` (lines 74-109) -/

/-- An fs-level deletion error: its `code` plus whether its message text
mentions a lock ("locked" / "in use"). -/
structure RmError where
  code : String
  msgMentionsLock : Bool
deriving DecidableEq, Repr

/-- The transient-lock classification of lines 92-97. -/
def RmError.isLocked (e : RmError) : Bool :=
  e.code == "EBUSY" || e.code == "EPERM" || e.code == "EACCES" ||
  e.code == "ENOTEMPTY" || e.msgMentionsLock

/-- Outcome of one deletion try: it worked, the target was already absent
(ENOENT), or it raised `e`. -/
inductive RmAttempt where
  | ok
  | absent
  | fail : RmError → RmAttempt
deriving DecidableEq, Repr

/-- Observable result of a `removePath` call: the error surfaced (`none` =
resolved), the sleeps performed before each retry, and how many tries ran. -/
structure RmRun where
  result : Option RmError
  delays : List Nat
  attemptsMade : Nat
deriving DecidableEq, Repr

/-- The loop of `removePath` (lines 75-108).  `oracle i` is the outcome of the
i-th deletion try; `fuel` counts the remaining loop iterations, so the loop
guard `i < retries` is `fuel > 0`.  ENOENT returns success; a transient-lock
error with `i < retries - 1` sleeps `delay * (i + 1)` and retries; any other
error, or the last try's error, surfaces. -/
def removePathGo (oracle : Nat → RmAttempt) (retries delay : Nat) :
    Nat → Nat → RmRun
  | i, 0 => ⟨none, [], i⟩
  | i, fuel + 1 =>
    match oracle i with
    | .ok => ⟨none, [], i + 1⟩
    | .absent => ⟨none, [], i + 1⟩
    | .fail e =>
      if e.isLocked && i < retries - 1 then
        let r := removePathGo oracle retries delay (i + 1) fuel
        ⟨r.result, delay * (i + 1) :: r.delays, r.attemptsMade⟩
      else ⟨some e, [], i + 1⟩

/-- One call `removePath(target, retries, delay)` under the try-outcome
oracle. -/
def removePathRun (oracle : Nat → RmAttempt) (retries delay : Nat) : RmRun :=
  removePathGo oracle retries delay 0 retries

/-! ### The update selector (lines 934-965) -/

structure UpdateEntry where
  version : Int
  enable : Bool
  download : String
deriving DecidableEq, Repr

/-- The filter of line 945: enabled and strictly newer than `current`. -/
def eligible (current : Int) (e : UpdateEntry) : Bool :=
  e.enable && decide (current < e.version)

/-- The descending-by-version order of the sort comparator
`(a, b) => b.version - a.version` (line 946). -/
def descVer : UpdateEntry → UpdateEntry → Prop :=
  fun a b => b.version ≤ a.version

instance : DecidableRel descVer := fun a b => by
  unfold descVer; infer_instance

instance : IsTotal UpdateEntry descVer :=
  ⟨fun a b => le_total b.version a.version⟩

instance : IsTrans UpdateEntry descVer :=
  ⟨fun _ _ _ h h' => le_trans h' h⟩

/-- The selection of `checkForUpdate` (lines 943-965): filter to enabled
entries newer than `current`, sort descending by `version` (a stable
comparison sort, as in modern JS engines), take the first; `none` when no
entry qualifies. -/
def selectUpdate (updates : List UpdateEntry) (current : Int) : Option UpdateEntry :=
  ((updates.filter (eligible current)).insertionSort descVer).head?

/-! ### The replacement engine `replace` (lines 407-487) -/

/-- Configuration of a `BundleUpdater` together with the run-specific facts
`replace` consults: the bundle path, the timestamped backup path chosen for
this swap, the `backup` option and whether the host platform is Windows. -/
structure BundleCfg where
  bundlePath : Path
  backupPath : Path
  backup : Bool
  isWindows : Bool
deriving DecidableEq, Repr

/-- Injected failures of the filesystem primitives used by `replace`.  Each
fault carries the error raised and the partial state the primitive left
behind. -/
structure ReplaceFaults where
  onBackup : Option (JsError × FS)
  onClear : Option (JsError × FS)
  onInstall : Option (JsError × FS)
  onRestoreClear : Option (JsError × FS)
  onRestoreCopy : Option (JsError × FS)
deriving DecidableEq, Repr

def noFaults : ReplaceFaults := ⟨none, none, none, none, none⟩

/-- The wrapping of lines 481-483. -/
def wrapRollback (e : JsError) : JsError :=
  ⟨"", "Failed to replace bundle. Backup restored. Original error: " ++ e.message⟩

/-- `shouldPreserveDirectory` (lines 422-426): Windows, bundle path's basename
is `package.nw`, and the bundle exists. -/
def shouldPreserve (cfg : BundleCfg) (fs : FS) : Bool :=
  cfg.isWindows && cfg.bundlePath.getLast? == some "package.nw" && fs.existsSync cfg.bundlePath

/-- The clearing step of `replace` (lines 429-452): either clear the contents
of `package.nw` preserving the directory, or remove the whole bundle and
ensure its parent directory exists. -/
def clearStepFS (cfg : BundleCfg) (preserve : Bool) (fs : FS) : FS :=
  if preserve then fs.clearContents cfg.bundlePath
  else
    let fsa := if fs.existsSync cfg.bundlePath then fs.rmTree cfg.bundlePath else fs
    if fsa.existsSync cfg.bundlePath.dropLast then fsa
    else fsa.mkdirRec cfg.bundlePath.dropLast

/-- Lines 455-457: recreate the bundle directory if the previous step removed
it. -/
def ensureBundle (cfg : BundleCfg) (fs : FS) : FS :=
  if fs.existsSync cfg.bundlePath then fs else fs.mkdirRec cfg.bundlePath

/-- The catch block of `replace` (lines 468-486).  With a backup present:
clear-or-remove the bundle, copy the backup back, and raise the original
error wrapped with the rollback note; an error of the restore itself
propagates instead.  Without a backup the original error propagates raw. -/
def rollbackStep (cfg : BundleCfg) (faults : ReplaceFaults) (bps : Option Path)
    (preserve : Bool) (fs : FS) (e : JsError) : FS × Option JsError :=
  match bps with
  | some bp =>
    if fs.existsSync bp then
      match faults.onRestoreClear with
      | some (e2, g) => (g, some e2)
      | none =>
        let fs1 := if preserve then fs.clearContents cfg.bundlePath
                   else if fs.existsSync cfg.bundlePath then fs.rmTree cfg.bundlePath else fs
        match faults.onRestoreCopy with
        | some (e2, g) => (g, some e2)
        | none =>
          match fs1.copyDir bp cfg.bundlePath with
          | (g, some e2) => (g, some e2)
          | (g, none) => (g, some (wrapRollback e))
    else (fs, some e)
  | none => (fs, some e)

/-- `replace(newBundlePath)` (lines 407-487): optional backup, clearing,
ensure-directory, install, and rollback-on-failure.  Returns the final state
and the error raised, if any. -/
def replaceFn (cfg : BundleCfg) (faults : ReplaceFaults) (src : Path) (fs : FS) :
    FS × Option JsError :=
  let bk : Option Path × FS × Option JsError :=
    if cfg.backup && fs.existsSync cfg.bundlePath then
      match faults.onBackup with
      | some (e, g) => (none, g, some e)
      | none =>
        match fs.copyDir cfg.bundlePath cfg.backupPath with
        | (g, some e) => (none, g, some e)
        | (g, none) => (some cfg.backupPath, g, none)
    else (none, fs, none)
  match bk with
  | (_, g, some e) => (g, some e)
  | (bps, fs0, none) =>
    let preserve := shouldPreserve cfg fs0
    match faults.onClear with
    | some (e, g) => rollbackStep cfg faults bps preserve g e
    | none =>
      let fs2 := ensureBundle cfg (clearStepFS cfg preserve fs0)
      match faults.onInstall with
      | some (e, g) => rollbackStep cfg faults bps preserve g e
      | none =>
        match fs2.copyDir src cfg.bundlePath with
        | (g, some e) => rollbackStep cfg faults bps preserve g e
        | (g, none) => (g, none)

/-! ### Reference intermediate states and fault plausibility -/

/-- The preserve decision as a function of the configuration alone (the
existence conjunct holds whenever the bundle directory exists). -/
def preserveOf (cfg : BundleCfg) : Bool :=
  cfg.isWindows && cfg.bundlePath.getLast? == some "package.nw"

/-- The state at which the clearing step starts, on a run where the bundle
exists and a backup is taken. -/
def replMidClear (cfg : BundleCfg) (fs : FS) : FS :=
  (fs.copyDir cfg.bundlePath cfg.backupPath).1

/-- The state at which the install step starts, on a run where the bundle
exists, a backup is taken and clearing succeeds. -/
def replMidInstall (cfg : BundleCfg) (fs : FS) : FS :=
  ensureBundle cfg (clearStepFS cfg (preserveOf cfg) (replMidClear cfg fs))

/-- Two filesystem states agree on everything outside the subtree of `p`. -/
def agreesOutside (p : Path) (ref g : FS) : Bool :=
  g.dirs.filter (fun d => !p.isPrefixOf d) == ref.dirs.filter (fun d => !p.isPrefixOf d) &&
  g.files.filter (fun f => !p.isPrefixOf f.1) == ref.files.filter (fun f => !p.isPrefixOf f.1)

/-- A partial state a clearing/install primitive can actually leave behind:
it agrees with the state the primitive started from outside the bundle
subtree, never turns the bundle directory itself into a file, only has
entries below the bundle when the bundle directory itself exists, and in
preserve mode never removes the bundle directory. -/
def plausibleMid (preserve : Bool) (bundle : Path) (ref g : FS) : Bool :=
  agreesOutside bundle ref g &&
  g.files.all (fun f => f.1 != bundle) &&
  (!(g.files.any (fun f => bundle.isPrefixOf f.1 && f.1 != bundle) ||
     g.dirs.any (fun d => bundle.isPrefixOf d && d != bundle)) ||
   g.dirs.contains bundle) &&
  (!preserve || g.dirs.contains bundle)

/-- The state carried by a fault, when present, satisfies `pred`. -/
def faultOk (pred : FS → Bool) : Option (JsError × FS) → Bool
  | some (_, g) => pred g
  | none => true

/-- The faults of a run whose injected failures sit only at the clearing and
install steps (the failure-injection boundary of the spec's invariant I1),
with partial states a real run could produce.  The install-fault state is
constrained only when the clearing step did not already fail. -/
def faultsPlausible (cfg : BundleCfg) (faults : ReplaceFaults) (fs : FS) : Bool :=
  faults.onBackup.isNone && faults.onRestoreClear.isNone && faults.onRestoreCopy.isNone &&
  faultOk (fun g => plausibleMid (preserveOf cfg) cfg.bundlePath (replMidClear cfg fs) g)
    faults.onClear &&
  (faults.onClear.isSome ||
   faultOk (fun g => plausibleMid (preserveOf cfg) cfg.bundlePath (replMidInstall cfg fs) g)
     faults.onInstall)

/-- Neither path is a prefix of the other. -/
def pathDisjoint (p q : Path) : Bool := !p.isPrefixOf q && !q.isPrefixOf p

/-! ### The orchestrator `checkForUpdate` (lines 866-1094) and `update`
(lines 492-539) -/

/-- Outcome of the manifest fetch: a JSON array, HTTP 404, or any other
failure. -/
inductive FetchOutcome where
  | ok : List UpdateEntry → FetchOutcome
  | notFound
  | fail : JsError → FetchOutcome
deriving DecidableEq, Repr

/-- Environment of one orchestrator run: outcome of the network and archive
operations, the temporary paths chosen for this run, the extracted archive
content (as paths relative to the unpacked directory), and the injected
filesystem faults. -/
structure CheckEnv where
  fetch : FetchOutcome
  zipPath : Path
  unpackedPath : Path
  zipData : Nat
  downloadFault : Option JsError
  unpackFault : Option JsError
  unpackDirs : List Path
  unpackFiles : List (Path × FileData)
  faults : ReplaceFaults
  cleanZipFault : Option JsError
  cleanDirFault : Option JsError
deriving Repr

/-- The options of `checkForUpdate` the control flow depends on. -/
structure CheckOpts where
  currentVersion : Option Int
  hasOnNeedRestart : Bool
deriving DecidableEq, Repr

/-- The status tokens of `onStatus`. -/
inductive Status where
  | checking | noUpdate | updateFound | downloading | downloaded
  | unpacking | unpacked | replacing | replaced | saving | cleaning
  | success | restartNeeded | error
deriving DecidableEq, Repr

/-- The user-callback invocations of one run. -/
inductive CbEvent where
  | noUpdate
  | updateFound : UpdateEntry → CbEvent
  | updateSuccess
  | updateFail : String → CbEvent
  | needRestart
deriving DecidableEq, Repr

/-- Observable result of a `checkForUpdate` run: statuses emitted, callbacks
invoked, final filesystem state. -/
structure CheckResult where
  statuses : List Status
  events : List CbEvent
  fs : FS
deriving DecidableEq, Repr

/-- The message of the inner catch (line 1083). -/
def failMsg (e : JsError) : String := "Failed to install update: " ++ e.message

/-- The zip cleanup of the inner catch (lines 1077-1079): best-effort, errors
swallowed. -/
def cleanupZip (env : CheckEnv) (fs : FS) : FS :=
  if fs.existsSync env.zipPath then fs.rmTree env.zipPath else fs

/-- The extraction effect of `unpack` (lines 316-359): each directory entry is
created, and each file entry is written after its parent directory is
ensured. -/
def applyUnpack (fs : FS) (dest : Path) (uds : List Path)
    (ufs : List (Path × FileData)) : FS :=
  let fs1 := uds.foldl (fun a d => a.mkdirRec (dest ++ d)) fs
  ufs.foldl (fun a f => (a.mkdirRec (dest ++ f.1).dropLast).writeFile (dest ++ f.1) f.2) fs1

/-- The state after download and unpack both succeed: the archive written at
`zipPath` (lines 716-744), the unpack destination cleared and recreated
(lines 290-297), and the archive contents extracted into it. -/
def unpackedState (env : CheckEnv) (fs : FS) : FS :=
  let fs1 := fs.writeFile env.zipPath (.raw env.zipData)
  let fs2 := (if fs1.existsSync env.unpackedPath then fs1.rmTree env.unpackedPath else fs1).mkdirRec
    env.unpackedPath
  applyUnpack fs2 env.unpackedPath env.unpackDirs env.unpackFiles

/-- The inner try/catch of `checkForUpdate` (lines 985-1084), entered after an
update has been selected. -/
def installPhase (cfg : BundleCfg) (opts : CheckOpts) (env : CheckEnv)
    (latest : UpdateEntry) (fs : FS) : CheckResult :=
  match env.downloadFault with
  | some e =>
    ⟨[.downloading, .error], [.updateFail (failMsg e)], cleanupZip env fs⟩
  | none =>
    let fsw := fs.writeFile env.zipPath (.raw env.zipData)
    let fsu := (if fsw.existsSync env.unpackedPath then fsw.rmTree env.unpackedPath else fsw).mkdirRec
      env.unpackedPath
    match env.unpackFault with
    | some e =>
      ⟨[.downloading, .downloaded, .unpacking, .error], [.updateFail (failMsg e)],
       cleanupZip env fsu⟩
    | none =>
      let fs3 := unpackedState env fs
      let src := findBundleSource fs3 env.unpackedPath
      match replaceFn cfg env.faults src fs3 with
      | (fs4, some e) =>
        ⟨[.downloading, .downloaded, .unpacking, .unpacked, .replacing, .error],
         [.updateFail (failMsg e)], cleanupZip env fs4⟩
      | (fs4, none) =>
        let fs5 := saveVersion fs4 cfg.bundlePath latest.version
        if fs5.existsSync env.zipPath then
          match env.cleanZipFault with
          | some e =>
            ⟨[.downloading, .downloaded, .unpacking, .unpacked, .replacing, .replaced,
              .saving, .cleaning, .error], [.updateFail (failMsg e)], cleanupZip env fs5⟩
          | none =>
            let fs6 := fs5.rmTree env.zipPath
            if fs6.existsSync env.unpackedPath then
              match env.cleanDirFault with
              | some e =>
                ⟨[.downloading, .downloaded, .unpacking, .unpacked, .replacing, .replaced,
                  .saving, .cleaning, .error], [.updateFail (failMsg e)], cleanupZip env fs6⟩
              | none =>
                ⟨[.downloading, .downloaded, .unpacking, .unpacked, .replacing, .replaced,
                  .saving, .cleaning, .success, .restartNeeded],
                 [.updateSuccess] ++ (if opts.hasOnNeedRestart then [.needRestart] else []),
                 fs6.rmTree env.unpackedPath⟩
            else
              ⟨[.downloading, .downloaded, .unpacking, .unpacked, .replacing, .replaced,
                .saving, .cleaning, .success, .restartNeeded],
               [.updateSuccess] ++ (if opts.hasOnNeedRestart then [.needRestart] else []),
               fs6⟩
        else
          let fs6 := fs5
          if fs6.existsSync env.unpackedPath then
            match env.cleanDirFault with
            | some e =>
              ⟨[.downloading, .downloaded, .unpacking, .unpacked, .replacing, .replaced,
                .saving, .cleaning, .error], [.updateFail (failMsg e)], cleanupZip env fs6⟩
            | none =>
              ⟨[.downloading, .downloaded, .unpacking, .unpacked, .replacing, .replaced,
                .saving, .cleaning, .success, .restartNeeded],
               [.updateSuccess] ++ (if opts.hasOnNeedRestart then [.needRestart] else []),
               fs6.rmTree env.unpackedPath⟩
          else
            ⟨[.downloading, .downloaded, .unpacking, .unpacked, .replacing, .replaced,
              .saving, .cleaning, .success, .restartNeeded],
             [.updateSuccess] ++ (if opts.hasOnNeedRestart then [.needRestart] else []),
             fs6⟩

/-- `checkForUpdate(options)` (lines 866-1094): fetch the manifest, select the
update, and drive the install phase; a 404 or an empty eligible set report
`no-update`; a fetch failure emits `error` in the fetch catch (line 930) and
again in the outer catch (line 1091) before the failure callback. -/
def checkForUpdate (cfg : BundleCfg) (opts : CheckOpts) (env : CheckEnv) (fs : FS) :
    CheckResult :=
  let current := opts.currentVersion.getD (getSavedVersion fs cfg.bundlePath)
  match env.fetch with
  | .notFound => ⟨[.checking, .noUpdate], [.noUpdate], fs⟩
  | .fail e =>
    ⟨[.checking, .error, .error],
     [.updateFail ("Failed to check for updates: " ++
        ("Failed to fetch update.json: " ++ e.message))], fs⟩
  | .ok updates =>
    match selectUpdate updates current with
    | none => ⟨[.checking, .noUpdate], [.noUpdate], fs⟩
    | some latest =>
      let r := installPhase cfg opts env latest fs
      ⟨[.checking, .updateFound] ++ r.statuses,
       [.updateFound latest] ++ r.events, r.fs⟩

/-- `update(url)` (lines 492-539): download, unpack, find the bundle source,
replace, then clean both temporary artifacts; on error, clean the zip and —
only when the unpack had completed, so the variable was assigned — the
unpacked directory. -/
def updateRun (cfg : BundleCfg) (env : CheckEnv) (fs : FS) : FS × Option JsError :=
  match env.downloadFault with
  | some e => (fs, some e)
  | none =>
    let fsw := fs.writeFile env.zipPath (.raw env.zipData)
    let fsu := (if fsw.existsSync env.unpackedPath then fsw.rmTree env.unpackedPath else fsw).mkdirRec
      env.unpackedPath
    match env.unpackFault with
    | some e =>
      (if fsu.existsSync env.zipPath then fsu.rmTree env.zipPath else fsu, some e)
    | none =>
      let fs3 := unpackedState env fs
      let src := findBundleSource fs3 env.unpackedPath
      match replaceFn cfg env.faults src fs3 with
      | (fs4, some e) =>
        let fsa := if fs4.existsSync env.zipPath then fs4.rmTree env.zipPath else fs4
        (if fsa.existsSync env.unpackedPath then fsa.rmTree env.unpackedPath else fsa, some e)
      | (fs4, none) =>
        let fsa := if fs4.existsSync env.zipPath then fs4.rmTree env.zipPath else fs4
        (if fsa.existsSync env.unpackedPath then fsa.rmTree env.unpackedPath else fsa, none)

/-! ### Path and list utilities -/

theorem ipo_iff {p q : Path} : p.isPrefixOf q = true ↔ p <+: q :=
  List.isPrefixOf_iff_prefix

theorem ipo_refl (p : Path) : p.isPrefixOf p = true :=
  ipo_iff.mpr (List.prefix_refl p)

theorem ipo_append (p s : Path) : p.isPrefixOf (p ++ s) = true :=
  ipo_iff.mpr (List.prefix_append p s)

theorem ipo_trans {p q r : Path} (h1 : p.isPrefixOf q = true)
    (h2 : q.isPrefixOf r = true) : p.isPrefixOf r = true :=
  ipo_iff.mpr ((ipo_iff.mp h1).trans (ipo_iff.mp h2))

theorem ipo_comparable {p q r : Path} (h1 : p.isPrefixOf r = true)
    (h2 : q.isPrefixOf r = true) :
    p.isPrefixOf q = true ∨ q.isPrefixOf p = true := by
  rcases List.prefix_or_prefix_of_prefix (ipo_iff.mp h1) (ipo_iff.mp h2) with h | h
  · exact Or.inl (ipo_iff.mpr h)
  · exact Or.inr (ipo_iff.mpr h)

theorem ipo_drop {p q : Path} (h : p.isPrefixOf q = true) :
    p ++ q.drop p.length = q := by
  obtain ⟨t, rfl⟩ := ipo_iff.mp h
  rw [List.drop_left]

theorem ipo_false_of_disjoint_left {p q x : Path}
    (hd : pathDisjoint p q = true) (hq : q.isPrefixOf x = true) :
    p.isPrefixOf x = false := by
  simp only [pathDisjoint, Bool.and_eq_true, Bool.not_eq_true'] at hd
  by_contra hne
  rcases ipo_comparable (Bool.of_not_eq_false hne) hq with h | h
  · rw [hd.1] at h; exact Bool.false_ne_true h
  · rw [hd.2] at h; exact Bool.false_ne_true h

theorem pathDisjoint_comm {p q : Path} (h : pathDisjoint p q = true) :
    pathDisjoint q p = true := by
  simp only [pathDisjoint, Bool.and_eq_true] at h ⊢
  exact ⟨h.2, h.1⟩

theorem contains_iff {l : List Path} {a : Path} : l.contains a = true ↔ a ∈ l := by
  simp [List.contains_iff_exists_mem_beq]

theorem find?_filter_aux {α : Type} (l : List α) (pr r : α → Bool)
    (h : ∀ a, pr a = true → r a = true) :
    l.find? pr = (l.filter r).find? pr := by
  induction l with
  | nil => rfl
  | cons x xs ih =>
    by_cases hx : pr x = true
    · rw [List.find?_cons_of_pos _ hx, List.filter_cons_of_pos (h x hx),
        List.find?_cons_of_pos _ hx]
    · rw [List.find?_cons_of_neg _ hx]
      by_cases hr : r x = true
      · rw [List.filter_cons_of_pos hr, List.find?_cons_of_neg _ hx, ih]
      · rw [List.filter_cons_of_neg (by simpa using hr), ih]

theorem filter_of_imp {α : Type} (l : List α) (q r : α → Bool)
    (h : ∀ a, q a = true → r a = true) :
    (l.filter r).filter q = l.filter q := by
  rw [List.filter_filter]
  refine List.filter_congr ?_
  intro a _
  by_cases hq : q a = true
  · simp [hq, h a hq]
  · simp [Bool.eq_false_iff.mpr hq]

theorem filter_keep_of_none {α : Type} (l : List α) (q : α → Bool)
    (h : ∀ a ∈ l, q a = false) : l.filter (fun a => !q a) = l := by
  refine List.filter_eq_self.mpr ?_
  intro a ha
  simp [h a ha]

theorem rerootFiles_all_pref {p q : Path} {l : List (Path × FileData)} :
    ∀ f ∈ rerootFiles p q l, q.isPrefixOf f.1 = true := by
  intro f hf
  simp only [rerootFiles, List.mem_map] at hf
  obtain ⟨g, _, rfl⟩ := hf
  exact ipo_append q _

theorem rerootFiles_filter_self {p q : Path} {l : List (Path × FileData)} :
    (rerootFiles p q l).filter (fun f => q.isPrefixOf f.1) = rerootFiles p q l :=
  List.filter_eq_self.mpr (fun f hf => rerootFiles_all_pref f hf)

theorem rerootFiles_roundtrip {p q : Path} {l : List (Path × FileData)} :
    rerootFiles q p (rerootFiles p q l) = l.filter (fun f => p.isPrefixOf f.1) := by
  unfold rerootFiles
  rw [show ((l.filter (fun f => p.isPrefixOf f.1)).map
        (fun f => (q ++ f.1.drop p.length, f.2))).filter (fun f => q.isPrefixOf f.1) =
      (l.filter (fun f => p.isPrefixOf f.1)).map (fun f => (q ++ f.1.drop p.length, f.2))
    from rerootFiles_filter_self]
  rw [List.map_map]
  refine Eq.trans (List.map_congr_left ?_) (List.map_id _)
  intro f hf
  have hp : p.isPrefixOf f.1 = true := (List.mem_filter.mp hf).2
  simp only [Function.comp, List.drop_left, id]
  rw [ipo_drop hp]

theorem mkdirRec_files (fs : FS) (p : Path) : (fs.mkdirRec p).files = fs.files := rfl

theorem rmTree_files (fs : FS) (p : Path) :
    (fs.rmTree p).files = fs.files.filter (fun f => !p.isPrefixOf f.1) := rfl

theorem rmTree_dirs (fs : FS) (p : Path) :
    (fs.rmTree p).dirs = fs.dirs.filter (fun d => !p.isPrefixOf d) := rfl

theorem contains_append_left {l l2 : List Path} {a : Path}
    (h : l.contains a = true) : (l ++ l2).contains a = true :=
  contains_iff.mpr (List.mem_append_left l2 (contains_iff.mp h))

theorem mkdirRec_contains_self (fs : FS) (p : Path) :
    (fs.mkdirRec p).dirs.contains p = true := by
  unfold FS.mkdirRec
  by_cases h : fs.dirs.contains p = true
  · exact contains_append_left h
  · refine contains_iff.mpr (List.mem_append_right _ ?_)
    refine List.mem_filter.mpr
      ⟨?_, by simp only [Bool.not_eq_true']; exact Bool.eq_false_iff.mpr h⟩
    exact (List.mem_inits p p).mpr (List.prefix_refl p)

theorem mkdirRec_contains_mono {fs : FS} {p d : Path}
    (h : fs.dirs.contains d = true) : (fs.mkdirRec p).dirs.contains d = true :=
  contains_append_left h

theorem any_eq_false_of_all_ne {l : List (Path × FileData)} {p : Path}
    (h : l.all (fun f => f.1 != p) = true) :
    l.any (fun f => f.1 == p) = false := by
  rw [List.any_eq_false]
  intro f hf
  have := List.all_eq_true.mp h f hf
  simpa using this

theorem rerootFiles_filter_arg {p q : Path} {l : List (Path × FileData)} :
    rerootFiles p q (l.filter (fun f => p.isPrefixOf f.1)) = rerootFiles p q l := by
  unfold rerootFiles
  rw [filter_of_imp l _ _ (fun a ha => ha)]

/-- Copying the backup into the (already cleared) bundle location restores
exactly the original bundle files, and succeeds. -/
theorem copyDir_restore (g1 : FS) (b k : Path) (orig : List (Path × FileData))
    (hA1 : g1.files.filter (fun f => b.isPrefixOf f.1) = [])
    (hA2 : g1.files.filter (fun f => k.isPrefixOf f.1) = rerootFiles b k orig)
    (hA3 : g1.dirs.contains k = true)
    (hnb1 : g1.files.all (fun f => f.1 != b) = true) :
    (g1.copyDir k b).2 = none ∧
    (g1.copyDir k b).1.files.filter (fun f => b.isPrefixOf f.1) =
      orig.filter (fun f => b.isPrefixOf f.1) ∧
    (g1.copyDir k b).1.dirs.contains b = true := by
  have hex : g1.existsSync b = g1.dirs.contains b := by
    unfold FS.existsSync
    rw [any_eq_false_of_all_ne hnb1, Bool.or_false]
  have hnf : rerootFiles k b g1.files = orig.filter (fun f => b.isPrefixOf f.1) := by
    rw [← @rerootFiles_filter_arg k b g1.files, hA2,
      rerootFiles_roundtrip]
  have hz :
      (g1.files.filter (fun f => !(rerootFiles k b g1.files).any (fun g2 => g2.1 == f.1))).filter
        (fun f => b.isPrefixOf f.1) = [] := by
    rw [List.filter_eq_nil_iff]
    intro f hf hpf
    have hmem : f ∈ g1.files.filter (fun f => b.isPrefixOf f.1) :=
      List.mem_filter.mpr ⟨(List.mem_filter.mp hf).1, hpf⟩
    rw [hA1] at hmem
    exact absurd hmem (List.not_mem_nil f)
  have hfiles :
      (g1.files.filter (fun f => !(rerootFiles k b g1.files).any (fun g2 => g2.1 == f.1)) ++
        rerootFiles k b g1.files).filter (fun f => b.isPrefixOf f.1) =
      orig.filter (fun f => b.isPrefixOf f.1) := by
    rw [List.filter_append, hz, List.nil_append, rerootFiles_filter_self, hnf]
  unfold FS.copyDir
  rw [hex]
  by_cases hb : g1.dirs.contains b = true
  · simp only [hb, hA3, if_true]
    exact ⟨by trivial, hfiles, contains_append_left hb⟩
  · simp only [Bool.eq_false_iff.mpr hb, if_false, hA3, if_true]
    exact ⟨by trivial, hfiles, contains_append_left (mkdirRec_contains_self g1 b)⟩

theorem contains_filter_of_pred {l : List Path} {a : Path} {p : Path → Bool}
    (h : l.contains a = true) (hp : p a = true) : (l.filter p).contains a = true :=
  contains_iff.mpr (List.mem_filter.mpr ⟨contains_iff.mp h, hp⟩)

theorem all_filter_sub {l : List (Path × FileData)} {p q : (Path × FileData) → Bool}
    (h : l.all q = true) : (l.filter p).all q = true :=
  List.all_eq_true.mpr (fun f hf => List.all_eq_true.mp h f (List.mem_filter.mp hf).1)

/-- The rollback branch of `replace`: whenever the backup exists and holds
exactly the re-rooted original bundle files, and the partial state left
behind by the failed step is one a real run can produce, the restore
succeeds, the bundle directory exists afterwards with exactly the original
files, and the error raised is the wrapped original. -/
theorem rollbackStep_restores (cfg : BundleCfg) (faults : ReplaceFaults)
    (preserve : Bool) (g : FS) (e : JsError) (orig : List (Path × FileData))
    (hd : pathDisjoint cfg.bundlePath cfg.backupPath = true)
    (hf1 : faults.onRestoreClear = none) (hf2 : faults.onRestoreCopy = none)
    (hkd : g.dirs.contains cfg.backupPath = true)
    (hkf : g.files.filter (fun f => cfg.backupPath.isPrefixOf f.1) =
      rerootFiles cfg.bundlePath cfg.backupPath orig)
    (hnb : g.files.all (fun f => f.1 != cfg.bundlePath) = true)
    (hroot : (g.files.any (fun f => cfg.bundlePath.isPrefixOf f.1 &&
                f.1 != cfg.bundlePath) ||
              g.dirs.any (fun d => cfg.bundlePath.isPrefixOf d &&
                d != cfg.bundlePath)) = true →
      g.dirs.contains cfg.bundlePath = true)
    (hpres : preserve = true → g.dirs.contains cfg.bundlePath = true) :
    (rollbackStep cfg faults (some cfg.backupPath) preserve g e).2 =
      some (wrapRollback e) ∧
    (rollbackStep cfg faults (some cfg.backupPath) preserve g e).1.filesUnder
      cfg.bundlePath = orig.filter (fun f => cfg.bundlePath.isPrefixOf f.1) ∧
    (rollbackStep cfg faults (some cfg.backupPath) preserve g e).1.dirs.contains
      cfg.bundlePath = true := by
  have hkb : ∀ x : Path, cfg.backupPath.isPrefixOf x = true →
      cfg.bundlePath.isPrefixOf x = false :=
    fun x hx => ipo_false_of_disjoint_left hd hx
  have hexk : g.existsSync cfg.backupPath = true := by
    unfold FS.existsSync
    rw [hkd, Bool.true_or]
  -- the cleared state g1 of each branch satisfies the premises of copyDir_restore
  have key : ∀ g1 : FS,
      g1.files.filter (fun f => cfg.bundlePath.isPrefixOf f.1) = [] →
      g1.files.filter (fun f => cfg.backupPath.isPrefixOf f.1) =
        rerootFiles cfg.bundlePath cfg.backupPath orig →
      g1.dirs.contains cfg.backupPath = true →
      g1.files.all (fun f => f.1 != cfg.bundlePath) = true →
      (match faults.onRestoreCopy with
       | some (e2, g2) => (g2, some e2)
       | none =>
         match g1.copyDir cfg.backupPath cfg.bundlePath with
         | (g2, some e2) => (g2, some e2)
         | (g2, none) => (g2, some (wrapRollback e))).2 = some (wrapRollback e) ∧
      (match faults.onRestoreCopy with
       | some (e2, g2) => (g2, some e2)
       | none =>
         match g1.copyDir cfg.backupPath cfg.bundlePath with
         | (g2, some e2) => (g2, some e2)
         | (g2, none) => (g2, some (wrapRollback e))).1.filesUnder cfg.bundlePath =
        orig.filter (fun f => cfg.bundlePath.isPrefixOf f.1) ∧
      (match faults.onRestoreCopy with
       | some (e2, g2) => (g2, some e2)
       | none =>
         match g1.copyDir cfg.backupPath cfg.bundlePath with
         | (g2, some e2) => (g2, some e2)
         | (g2, none) => (g2, some (wrapRollback e))).1.dirs.contains
          cfg.bundlePath = true := by
    intro g1 hA1 hA2 hA3 hnb1
    obtain ⟨h1, h2, h3⟩ := copyDir_restore g1 cfg.bundlePath cfg.backupPath orig hA1 hA2 hA3 hnb1
    rw [hf2]
    rcases hcd : g1.copyDir cfg.backupPath cfg.bundlePath with ⟨g2, err⟩
    rw [hcd] at h1 h2 h3
    simp only at h1
    subst h1
    exact ⟨rfl, h2, h3⟩
  simp only [rollbackStep, hf1, hexk, if_true]
  by_cases hp : preserve = true
  · -- preserve mode: clear the contents of the existing bundle directory
    have hbd : g.dirs.contains cfg.bundlePath = true := hpres hp
    rw [if_pos hp]
    unfold FS.clearContents
    rw [if_pos hbd]
    refine key _ ?_ ?_ ?_ ?_
    · rw [List.filter_eq_nil_iff]
      intro f hf hpf
      have hin := List.mem_filter.mp hf
      have hne := List.all_eq_true.mp hnb f hin.1
      have : (f.1 != cfg.bundlePath) = true := by simpa using hne
      simp [hpf, this] at hin
    · rw [filter_of_imp]
      · exact hkf
      · intro f hfk
        rw [hkb f.1 hfk]
        simp
    · exact contains_filter_of_pred hkd (by rw [hkb _ (ipo_refl _)]; simp)
    · exact all_filter_sub hnb
  · -- non-preserve mode: remove the bundle tree (when it exists)
    rw [if_neg hp]
    by_cases hgb : g.existsSync cfg.bundlePath = true
    · rw [if_pos hgb]
      unfold FS.rmTree
      refine key _ ?_ ?_ ?_ ?_
      · rw [List.filter_eq_nil_iff]
        intro f hf hpf
        have := (List.mem_filter.mp hf).2
        simp [hpf] at this
      · rw [filter_of_imp]
        · exact hkf
        · intro f hfk
          rw [hkb f.1 hfk]
          simp
      · exact contains_filter_of_pred hkd (by rw [hkb _ (ipo_refl _)]; simp)
      · exact all_filter_sub hnb
    · rw [if_neg hgb]
      have hbd : g.dirs.contains cfg.bundlePath = false := by
        by_contra hc
        have hc' : g.dirs.contains cfg.bundlePath = true := Bool.of_not_eq_false hc
        apply hgb
        unfold FS.existsSync
        rw [hc', Bool.true_or]
      refine key _ ?_ hkf hkd hnb
      rw [List.filter_eq_nil_iff]
      intro f hf hpf
      have hne := List.all_eq_true.mp hnb f hf
      have hne' : (f.1 != cfg.bundlePath) = true := by simpa using hne
      have : g.files.any (fun f => cfg.bundlePath.isPrefixOf f.1 &&
          f.1 != cfg.bundlePath) = true :=
        List.any_eq_true.mpr ⟨f, hf, by rw [hpf, hne']; rfl⟩
      have := hroot (by rw [this, Bool.true_or])
      rw [this] at hbd
      exact absurd hbd (by simp)

theorem contains_eq_false_of_filter_nil {l : List Path} {k : Path}
    (h : l.filter (fun d => k.isPrefixOf d) = []) : l.contains k = false := by
  by_contra hc
  have hm : k ∈ l.filter (fun d => k.isPrefixOf d) :=
    List.mem_filter.mpr ⟨contains_iff.mp (Bool.of_not_eq_false hc), ipo_refl k⟩
  rw [h] at hm
  exact absurd hm (List.not_mem_nil k)

theorem any_eq_false_of_filter_nil {l : List (Path × FileData)} {k : Path}
    (h : l.filter (fun f => k.isPrefixOf f.1) = []) :
    l.any (fun f => f.1 == k) = false := by
  rw [List.any_eq_false]
  intro f hf hb
  have hfk : k.isPrefixOf f.1 = true := by
    rw [eq_of_beq hb]
    exact ipo_refl k
  have hm : f ∈ l.filter (fun f => k.isPrefixOf f.1) := List.mem_filter.mpr ⟨hf, hfk⟩
  rw [h] at hm
  exact absurd hm (List.not_mem_nil f)

theorem exists_of_contains {fs : FS} {p : Path} (h : fs.dirs.contains p = true) :
    fs.existsSync p = true := by
  unfold FS.existsSync
  rw [h, Bool.true_or]

theorem reroot_all_ne {b k : Path} {l : List (Path × FileData)}
    (hkb : k.isPrefixOf b = false) :
    (rerootFiles b k l).all (fun f => f.1 != b) = true := by
  rw [List.all_eq_true]
  intro f hf
  have := rerootFiles_all_pref f hf
  by_contra hc
  simp only [bne_iff_ne, ne_eq, not_not] at hc
  rw [hc] at this
  rw [this] at hkb
  exact absurd hkb (by simp)

/-- Facts about the state just after a successful backup (the state the
clearing step starts from). -/
theorem midClear_facts (cfg : BundleCfg) (fs : FS)
    (hb : fs.dirs.contains cfg.bundlePath = true)
    (hd : pathDisjoint cfg.bundlePath cfg.backupPath = true)
    (hkff : fs.files.filter (fun f => cfg.backupPath.isPrefixOf f.1) = [])
    (hkfd : fs.dirs.filter (fun d => cfg.backupPath.isPrefixOf d) = [])
    (hnofb : fs.files.all (fun f => f.1 != cfg.bundlePath) = true) :
    (replMidClear cfg fs).files =
      fs.files ++ rerootFiles cfg.bundlePath cfg.backupPath fs.files ∧
    (replMidClear cfg fs).dirs.contains cfg.backupPath = true ∧
    (replMidClear cfg fs).dirs.contains cfg.bundlePath = true ∧
    (replMidClear cfg fs).files.filter (fun f => cfg.backupPath.isPrefixOf f.1) =
      rerootFiles cfg.bundlePath cfg.backupPath fs.files ∧
    (replMidClear cfg fs).files.all (fun f => f.1 != cfg.bundlePath) = true ∧
    (fs.copyDir cfg.bundlePath cfg.backupPath).2 = none ∧
    (∀ d : Path, fs.dirs.contains d = true →
      (replMidClear cfg fs).dirs.contains d = true) := by
  have hexk : fs.existsSync cfg.backupPath = false := by
    unfold FS.existsSync
    rw [contains_eq_false_of_filter_nil hkfd, any_eq_false_of_filter_nil hkff]
    rfl
  have hkeep : ∀ f ∈ fs.files,
      (rerootFiles cfg.bundlePath cfg.backupPath fs.files).any
        (fun g2 => g2.1 == f.1) = false := by
    intro f hf
    rw [List.any_eq_false]
    intro g2 hg2 hbeq
    have hk2 : cfg.backupPath.isPrefixOf g2.1 = true := rerootFiles_all_pref g2 hg2
    rw [eq_of_beq hbeq] at hk2
    have hm : f ∈ fs.files.filter (fun f => cfg.backupPath.isPrefixOf f.1) :=
      List.mem_filter.mpr ⟨hf, hk2⟩
    rw [hkff] at hm
    exact absurd hm (List.not_mem_nil f)
  unfold replMidClear FS.copyDir
  rw [hexk]
  simp only [Bool.false_eq_true, if_false, hb, if_true]
  have hfiles :
      ((fs.mkdirRec cfg.backupPath).files.filter
        (fun f => !(rerootFiles cfg.bundlePath cfg.backupPath fs.files).any
          (fun g2 => g2.1 == f.1)) ++
        rerootFiles cfg.bundlePath cfg.backupPath fs.files) =
      fs.files ++ rerootFiles cfg.bundlePath cfg.backupPath fs.files := by
    rw [mkdirRec_files, filter_keep_of_none fs.files _ hkeep]
  refine ⟨hfiles, ?_, ?_, ?_, ?_, by trivial, ?_⟩
  · exact contains_append_left (mkdirRec_contains_self fs cfg.backupPath)
  · exact contains_append_left (mkdirRec_contains_mono hb)
  · rw [hfiles, List.filter_append, hkff, List.nil_append, rerootFiles_filter_self]
  · rw [hfiles, List.all_append]
    rw [hnofb, reroot_all_ne ?_]
    · rfl
    · simp only [pathDisjoint, Bool.and_eq_true, Bool.not_eq_true'] at hd
      exact hd.2
  · intro d hd2
    exact contains_append_left (mkdirRec_contains_mono hd2)

/-- The bundle-local invariants are preserved from the post-backup state to
the state the install step starts from. -/
theorem midInstall_facts (pv : Bool) (fs0Orig : List (Path × FileData)) (cfg : BundleCfg) (fs0 : FS)
    (hd : pathDisjoint cfg.bundlePath cfg.backupPath = true)
    (hk : fs0.dirs.contains cfg.backupPath = true)
    (hfilt : fs0.files.filter (fun f => cfg.backupPath.isPrefixOf f.1) =
      rerootFiles cfg.bundlePath cfg.backupPath fs0Orig)
    (hall : fs0.files.all (fun f => f.1 != cfg.bundlePath) = true) :
    (ensureBundle cfg (clearStepFS cfg pv fs0)).dirs.contains cfg.backupPath = true ∧
    (ensureBundle cfg (clearStepFS cfg pv fs0)).files.filter
      (fun f => cfg.backupPath.isPrefixOf f.1) =
      rerootFiles cfg.bundlePath cfg.backupPath fs0Orig ∧
    (ensureBundle cfg (clearStepFS cfg pv fs0)).files.all
      (fun f => f.1 != cfg.bundlePath) = true ∧
    (ensureBundle cfg (clearStepFS cfg pv fs0)).dirs.contains cfg.bundlePath = true := by
  have hkb : cfg.bundlePath.isPrefixOf cfg.backupPath = false := by
    simp only [pathDisjoint, Bool.and_eq_true, Bool.not_eq_true'] at hd
    exact hd.1
  have hkimp : ∀ f : Path × FileData, cfg.backupPath.isPrefixOf f.1 = true →
      (!(cfg.bundlePath.isPrefixOf f.1)) = true := by
    intro f hf
    rw [ipo_false_of_disjoint_left hd hf]
    rfl
  -- the invariants for the state after the clearing step
  have hmain : ∀ fsc : FS, fsc = clearStepFS cfg pv fs0 →
      fsc.dirs.contains cfg.backupPath = true ∧
      fsc.files.filter (fun f => cfg.backupPath.isPrefixOf f.1) =
        rerootFiles cfg.bundlePath cfg.backupPath fs0Orig ∧
      fsc.files.all (fun f => f.1 != cfg.bundlePath) = true := by
    intro fsc hfsc
    unfold clearStepFS at hfsc
    by_cases hpv : pv = true
    · rw [if_pos hpv] at hfsc
      unfold FS.clearContents at hfsc
      by_cases hcb : fs0.dirs.contains cfg.bundlePath = true
      · rw [if_pos hcb] at hfsc
        subst hfsc
        refine ⟨contains_filter_of_pred hk ?_, ?_, all_filter_sub hall⟩
        · rw [hkb]
          rfl
        · rw [filter_of_imp]
          · exact hfilt
          · intro f hf
            rw [ipo_false_of_disjoint_left hd hf]
            rfl
      · rw [if_neg hcb] at hfsc
        subst hfsc
        exact ⟨hk, hfilt, hall⟩
    · rw [if_neg hpv] at hfsc
      by_cases hex : fs0.existsSync cfg.bundlePath = true
      · rw [if_pos hex] at hfsc
        have hrm : (fs0.rmTree cfg.bundlePath).dirs.contains cfg.backupPath = true ∧
            (fs0.rmTree cfg.bundlePath).files.filter
              (fun f => cfg.backupPath.isPrefixOf f.1) =
              rerootFiles cfg.bundlePath cfg.backupPath fs0Orig ∧
            (fs0.rmTree cfg.bundlePath).files.all (fun f => f.1 != cfg.bundlePath) = true := by
          refine ⟨contains_filter_of_pred hk ?_, ?_, all_filter_sub hall⟩
          · rw [hkb]
            rfl
          · rw [rmTree_files, filter_of_imp _ _ _ hkimp]
            exact hfilt
        by_cases hpar : (fs0.rmTree cfg.bundlePath).existsSync cfg.bundlePath.dropLast = true
        · rw [if_pos hpar] at hfsc
          subst hfsc
          exact hrm
        · rw [if_neg hpar] at hfsc
          subst hfsc
          exact ⟨mkdirRec_contains_mono hrm.1, hrm.2.1, hrm.2.2⟩
      · rw [if_neg hex] at hfsc
        by_cases hpar : fs0.existsSync cfg.bundlePath.dropLast = true
        · rw [if_pos hpar] at hfsc
          subst hfsc
          exact ⟨hk, hfilt, hall⟩
        · rw [if_neg hpar] at hfsc
          subst hfsc
          exact ⟨mkdirRec_contains_mono hk, hfilt, hall⟩
  obtain ⟨h1, h2, h3⟩ := hmain (clearStepFS cfg pv fs0) rfl
  unfold ensureBundle
  by_cases hex2 : (clearStepFS cfg pv fs0).existsSync cfg.bundlePath = true
  · rw [if_pos hex2]
    refine ⟨h1, h2, h3, ?_⟩
    have : (clearStepFS cfg pv fs0).existsSync cfg.bundlePath =
        (clearStepFS cfg pv fs0).dirs.contains cfg.bundlePath := by
      unfold FS.existsSync
      rw [any_eq_false_of_all_ne h3, Bool.or_false]
    rw [← this]
    exact hex2
  · rw [if_neg hex2]
    exact ⟨mkdirRec_contains_mono h1, h2, h3,
      mkdirRec_contains_self (clearStepFS cfg pv fs0) cfg.bundlePath⟩

/-- Transfer of backup-side facts from a reference state to any partial state
agreeing with it outside the bundle subtree. -/
theorem transfer_of_agrees {b k : Path} {ref g : FS}
    (hd : pathDisjoint b k)
    (hag : agreesOutside b ref g = true)
    (hrk : ref.dirs.contains k = true)
    (hrf : ref.files.filter (fun f => k.isPrefixOf f.1) = X) :
    g.dirs.contains k = true ∧ g.files.filter (fun f => k.isPrefixOf f.1) = X := by
  have hkb : (!(b.isPrefixOf k)) = true := by
    simp only [pathDisjoint, Bool.and_eq_true, Bool.not_eq_true'] at hd
    rw [hd.1]
    rfl
  unfold agreesOutside at hag
  rw [Bool.and_eq_true] at hag
  have hdirs : g.dirs.filter (fun d => !b.isPrefixOf d) =
      ref.dirs.filter (fun d => !b.isPrefixOf d) := eq_of_beq hag.1
  have hfiles : g.files.filter (fun f => !b.isPrefixOf f.1) =
      ref.files.filter (fun f => !b.isPrefixOf f.1) := eq_of_beq hag.2
  constructor
  · have h1 : k ∈ ref.dirs.filter (fun d => !b.isPrefixOf d) :=
      List.mem_filter.mpr ⟨contains_iff.mp hrk, hkb⟩
    rw [← hdirs] at h1
    exact contains_iff.mpr (List.mem_filter.mp h1).1
  · have himp : ∀ f : Path × FileData, k.isPrefixOf f.1 = true →
        (!(b.isPrefixOf f.1)) = true := by
      intro f hf
      rw [ipo_false_of_disjoint_left hd hf]
      rfl
    rw [← filter_of_imp g.files _ _ himp, hfiles, filter_of_imp ref.files _ _ himp, hrf]

theorem copyDir_err_state {fs g2 : FS} {src dst : Path} {e : JsError}
    (hex : fs.existsSync dst = true)
    (h : fs.copyDir src dst = (g2, some e)) : g2 = fs := by
  unfold FS.copyDir at h
  rw [if_pos hex] at h
  by_cases hsrc : fs.dirs.contains src = true
  · rw [if_pos hsrc] at h
    exact absurd (congrArg Prod.snd h) (by simp)
  · rw [if_neg hsrc] at h
    by_cases hany : fs.files.any (fun f => f.1 == src) = true
    · rw [if_pos hany] at h
      exact (congrArg Prod.fst h).symm
    · rw [if_neg hany] at h
      exact (congrArg Prod.fst h).symm

/-- The original error of the try block of `replace` (clearing or install),
on a run where the bundle exists and a backup is taken: the injected clear
fault, else the injected install fault, else the genuine error of the
install copy. -/
def tryErr (cfg : BundleCfg) (faults : ReplaceFaults) (src : Path) (fs : FS) :
    Option JsError :=
  match faults.onClear with
  | some (e, _) => some e
  | none =>
    match faults.onInstall with
    | some (e, _) => some e
    | none => ((replMidInstall cfg fs).copyDir src cfg.bundlePath).2

/-- Normal form of `replace` on a run where the bundle directory exists, the
backup option is on, the backup path is fresh and no backup fault is
injected: the backup succeeds, and the run is determined by the clearing and
install steps. -/
theorem replaceFn_reduce (cfg : BundleCfg) (faults : ReplaceFaults) (src : Path) (fs : FS)
    (hback : cfg.backup = true)
    (hb : fs.dirs.contains cfg.bundlePath = true)
    (hd : pathDisjoint cfg.bundlePath cfg.backupPath = true)
    (hkff : fs.files.filter (fun f => cfg.backupPath.isPrefixOf f.1) = [])
    (hkfd : fs.dirs.filter (fun d => cfg.backupPath.isPrefixOf d) = [])
    (hnofb : fs.files.all (fun f => f.1 != cfg.bundlePath) = true)
    (hB : faults.onBackup = none) :
    replaceFn cfg faults src fs =
      match faults.onClear with
      | some (e, g) =>
        rollbackStep cfg faults (some cfg.backupPath) (preserveOf cfg) g e
      | none =>
        match faults.onInstall with
        | some (e, g) =>
          rollbackStep cfg faults (some cfg.backupPath) (preserveOf cfg) g e
        | none =>
          match (replMidInstall cfg fs).copyDir src cfg.bundlePath with
          | (_, some e) =>
            rollbackStep cfg faults (some cfg.backupPath) (preserveOf cfg)
              (replMidInstall cfg fs) e
          | (g2, none) => (g2, none) := by
  obtain ⟨hm1, hm2, hm3, hm4, hm5, hm6, hm7⟩ := midClear_facts cfg fs hb hd hkff hkfd hnofb
  rcases hcd : fs.copyDir cfg.bundlePath cfg.backupPath with ⟨fs0, err0⟩
  rw [hcd] at hm6
  simp only at hm6
  subst hm6
  have hfs0 : replMidClear cfg fs = fs0 := by
    unfold replMidClear
    rw [hcd]
  rw [hfs0] at hm1 hm2 hm3 hm4 hm5
  have hpv : shouldPreserve cfg fs0 = preserveOf cfg := by
    unfold shouldPreserve preserveOf
    rw [exists_of_contains hm3, Bool.and_true]
  have hmi : ensureBundle cfg (clearStepFS cfg (preserveOf cfg) fs0) =
      replMidInstall cfg fs := by
    unfold replMidInstall
    rw [hfs0]
  unfold replaceFn
  rw [hback, exists_of_contains hb,
    if_pos (show (true && true) = true from rfl), hB, hcd]
  simp only [hpv, hmi]
  rcases hC : faults.onClear with _ | ⟨e, g⟩
  · simp only
    rcases hI : faults.onInstall with _ | ⟨e, g⟩
    · simp only
      obtain ⟨_, _, _, q4⟩ :=
        midInstall_facts (preserveOf cfg) fs.files cfg fs0 hd hm2 hm4 hm5
      rw [hmi] at q4
      rcases hg : (replMidInstall cfg fs).copyDir src cfg.bundlePath with ⟨g2, err2⟩
      rcases err2 with _ | e2
      · rfl
      · rw [copyDir_err_state (exists_of_contains q4) hg]
    · rfl
  · rfl

theorem bor_imp {x y : Bool} (h : (!x || y) = true) : x = true → y = true := by
  intro hx
  rw [hx] at h
  simpa using h

/-- Master lemma: on a backed-up run of `replace` whose clearing or install
step raises `e` (injected with a plausible partial state, or the genuine
install failure), the rollback runs, restores the bundle exactly, and
`replace` raises `e` wrapped with the rollback note. -/
theorem replaceFn_rollback_master (cfg : BundleCfg) (faults : ReplaceFaults)
    (src : Path) (fs : FS) (e : JsError)
    (hback : cfg.backup = true)
    (hb : fs.dirs.contains cfg.bundlePath = true)
    (hd : pathDisjoint cfg.bundlePath cfg.backupPath = true)
    (hkff : fs.files.filter (fun f => cfg.backupPath.isPrefixOf f.1) = [])
    (hkfd : fs.dirs.filter (fun d => cfg.backupPath.isPrefixOf d) = [])
    (hnofb : fs.files.all (fun f => f.1 != cfg.bundlePath) = true)
    (hpl : faultsPlausible cfg faults fs = true)
    (htry : tryErr cfg faults src fs = some e) :
    (replaceFn cfg faults src fs).2 = some (wrapRollback e) ∧
    (replaceFn cfg faults src fs).1.filesUnder cfg.bundlePath =
      fs.files.filter (fun f => cfg.bundlePath.isPrefixOf f.1) ∧
    (replaceFn cfg faults src fs).1.dirs.contains cfg.bundlePath = true := by
  simp only [faultsPlausible, Bool.and_eq_true] at hpl
  obtain ⟨⟨⟨⟨hB', hR1'⟩, hR2'⟩, hClear⟩, hInstall⟩ := hpl
  have hB : faults.onBackup = none := Option.isNone_iff_eq_none.mp hB'
  have hR1 : faults.onRestoreClear = none := Option.isNone_iff_eq_none.mp hR1'
  have hR2 : faults.onRestoreCopy = none := Option.isNone_iff_eq_none.mp hR2'
  obtain ⟨hm1, hm2, hm3, hm4, hm5, hm6, hm7⟩ := midClear_facts cfg fs hb hd hkff hkfd hnofb
  obtain ⟨q1, q2, q3, q4⟩ :=
    midInstall_facts (preserveOf cfg) fs.files cfg
      (replMidClear cfg fs) hd hm2 hm4 hm5
  have q1' : (replMidInstall cfg fs).dirs.contains cfg.backupPath = true := q1
  have q2' : (replMidInstall cfg fs).files.filter
      (fun f => cfg.backupPath.isPrefixOf f.1) =
      rerootFiles cfg.bundlePath cfg.backupPath fs.files := q2
  have q3' : (replMidInstall cfg fs).files.all (fun f => f.1 != cfg.bundlePath) = true := q3
  have q4' : (replMidInstall cfg fs).dirs.contains cfg.bundlePath = true := q4
  have hClearP : ∀ e2 g, faults.onClear = some (e2, g) →
      plausibleMid (preserveOf cfg) cfg.bundlePath (replMidClear cfg fs) g = true := by
    intro e2 g h
    rw [h] at hClear
    simpa [faultOk] using hClear
  have hInstallP : ∀ e2 g, faults.onClear = none → faults.onInstall = some (e2, g) →
      plausibleMid (preserveOf cfg) cfg.bundlePath (replMidInstall cfg fs) g = true := by
    intro e2 g hc h
    rw [h, hc] at hInstall
    simpa [faultOk] using hInstall
  clear hClear hInstall
  rw [replaceFn_reduce cfg faults src fs hback hb hd hkff hkfd hnofb hB]
  unfold tryErr at htry
  rcases hC : faults.onClear with _ | ⟨e1, g⟩
  · rw [hC] at htry
    simp only at htry
    rcases hI : faults.onInstall with _ | ⟨e1, g⟩
    · -- genuine install failure; rollback from the pre-install state itself
      rw [hI] at htry
      simp only at htry
      rcases hg : (replMidInstall cfg fs).copyDir src cfg.bundlePath with ⟨g2, err2⟩
      rw [hg] at htry
      simp only at htry
      subst htry
      simp only
      exact rollbackStep_restores cfg faults (preserveOf cfg) (replMidInstall cfg fs) e
        fs.files hd hR1 hR2 q1' q2' q3' (fun _ => q4') (fun _ => q4')
    · rw [hI] at htry
      simp only at htry
      have he : e1 = e := Option.some.inj htry
      rw [← he]
      have hpm := hInstallP e1 g hC hI
      simp only [plausibleMid, Bool.and_eq_true] at hpm
      obtain ⟨⟨⟨hag, hne⟩, hroot'⟩, hpres'⟩ := hpm
      obtain ⟨hgk, hgf⟩ := transfer_of_agrees hd hag q1' q2'
      simp only
      exact rollbackStep_restores cfg faults (preserveOf cfg) g e1 fs.files hd hR1 hR2
        hgk hgf hne (bor_imp hroot') (bor_imp hpres')
  · rw [hC] at htry
    simp only at htry
    have he : e1 = e := Option.some.inj htry
    rw [← he]
    have hpm := hClearP e1 g hC
    simp only [plausibleMid, Bool.and_eq_true] at hpm
    obtain ⟨⟨⟨hag, hne⟩, hroot'⟩, hpres'⟩ := hpm
    obtain ⟨hgk, hgf⟩ := transfer_of_agrees hd hag hm2 hm4
    simp only
    exact rollbackStep_restores cfg faults (preserveOf cfg) g e1 fs.files hd hR1 hR2
      hgk hgf hne (bor_imp hroot') (bor_imp hpres')

/-- When neither the clearing nor the install step errors, `replace` raises
nothing. -/
theorem replaceFn_tryErr_none (cfg : BundleCfg) (faults : ReplaceFaults)
    (src : Path) (fs : FS)
    (hback : cfg.backup = true)
    (hb : fs.dirs.contains cfg.bundlePath = true)
    (hd : pathDisjoint cfg.bundlePath cfg.backupPath = true)
    (hkff : fs.files.filter (fun f => cfg.backupPath.isPrefixOf f.1) = [])
    (hkfd : fs.dirs.filter (fun d => cfg.backupPath.isPrefixOf d) = [])
    (hnofb : fs.files.all (fun f => f.1 != cfg.bundlePath) = true)
    (hB : faults.onBackup = none)
    (htry : tryErr cfg faults src fs = none) :
    (replaceFn cfg faults src fs).2 = none := by
  rw [replaceFn_reduce cfg faults src fs hback hb hd hkff hkfd hnofb hB]
  unfold tryErr at htry
  rcases hC : faults.onClear with _ | ⟨e1, g⟩
  · rw [hC] at htry
    simp only at htry
    rcases hI : faults.onInstall with _ | ⟨e1, g⟩
    · rw [hI] at htry
      simp only at htry
      rcases hg : (replMidInstall cfg fs).copyDir src cfg.bundlePath with ⟨g2, err2⟩
      rw [hg] at htry
      simp only at htry
      subst htry
      rfl
    · rw [hI] at htry
      simp at htry
  · rw [hC] at htry
    simp at htry

/-- C1: on a run of `replace` with the backup option on, a non-empty existing
bundle directory, a fresh backup path, and failures injected at the clearing
or install steps (the failure-injection boundary of invariant I1), if
`replace` raises then afterwards the bundle directory still exists and holds
exactly the pre-swap file set — never an empty or partially-written tree. -/
theorem replace_atomic_under_induced_failure
    (cfg : BundleCfg) (faults : ReplaceFaults) (src : Path) (fs : FS)
    (hback : cfg.backup = true)
    (hb : fs.dirs.contains cfg.bundlePath = true)
    (hne : fs.filesUnder cfg.bundlePath ≠ [])
    (hnofb : fs.files.all (fun f => f.1 != cfg.bundlePath) = true)
    (hd : pathDisjoint cfg.bundlePath cfg.backupPath = true)
    (hkff : fs.filesUnder cfg.backupPath = [])
    (hkfd : fs.dirsUnder cfg.backupPath = [])
    (hpl : faultsPlausible cfg faults fs = true)
    (herr : (replaceFn cfg faults src fs).2.isSome = true) :
    (replaceFn cfg faults src fs).1.dirs.contains cfg.bundlePath = true ∧
    (replaceFn cfg faults src fs).1.filesUnder cfg.bundlePath =
      fs.filesUnder cfg.bundlePath ∧
    (replaceFn cfg faults src fs).1.filesUnder cfg.bundlePath ≠ [] := by
  have hkff' : fs.files.filter (fun f => cfg.backupPath.isPrefixOf f.1) = [] := hkff
  have hkfd' : fs.dirs.filter (fun d => cfg.backupPath.isPrefixOf d) = [] := hkfd
  have hB : faults.onBackup = none := by
    simp only [faultsPlausible, Bool.and_eq_true] at hpl
    exact Option.isNone_iff_eq_none.mp hpl.1.1.1.1
  rcases htry : tryErr cfg faults src fs with _ | e0
  · have h0 := replaceFn_tryErr_none cfg faults src fs hback hb hd hkff' hkfd' hnofb hB htry
    rw [h0] at herr
    exact absurd herr (by simp)
  · obtain ⟨h1, h2, h3⟩ :=
      replaceFn_rollback_master cfg faults src fs e0 hback hb hd hkff' hkfd' hnofb hpl htry
    refine ⟨h3, h2, ?_⟩
    rw [h2]
    exact hne

namespace C1W

def fsW : FS := ⟨[[], ["app"]], [(["app", "index"], .raw 1)]⟩

def cfgW : BundleCfg := ⟨["app"], ["app.backup.1"], true, false⟩

/-- A plausible partial state of the failed install step: the pre-install
state with an extra half-written file below the bundle. -/
def gW : FS :=
  ⟨[[], ["app.backup.1"], ["app"]],
   [(["app.backup.1", "index"], .raw 1), (["app", "partial"], .raw 9)]⟩

def faultsW : ReplaceFaults := ⟨none, none, some (⟨"EBUSY", "busy"⟩, gW), none, none⟩

end C1W

theorem replace_atomic_witness :
    faultsPlausible C1W.cfgW C1W.faultsW C1W.fsW = true ∧
    (replaceFn C1W.cfgW C1W.faultsW ["tmp", "u"] C1W.fsW).2.isSome = true ∧
    (replaceFn C1W.cfgW C1W.faultsW ["tmp", "u"] C1W.fsW).1.filesUnder ["app"] =
      C1W.fsW.filesUnder ["app"] ∧
    (replaceFn C1W.cfgW C1W.faultsW ["tmp", "u"] C1W.fsW).1.dirs.contains ["app"] = true :=
  ⟨by decide, by decide,
    (replace_atomic_under_induced_failure C1W.cfgW C1W.faultsW ["tmp", "u"] C1W.fsW
      (by decide) (by decide) (by decide) (by decide) (by decide) (by decide)
      (by decide) (by decide) (by decide)).2.1,
    (replace_atomic_under_induced_failure C1W.cfgW C1W.faultsW ["tmp", "u"] C1W.fsW
      (by decide) (by decide) (by decide) (by decide) (by decide) (by decide)
      (by decide) (by decide) (by decide)).1⟩

/-- C5 (amended): on a backed-up run of `replace` whose clearing or install
step raises `e`, when the rollback restore itself succeeds (no failure is
injected into it), the error finally raised is the original error wrapped
with the note that the backup was restored. -/
theorem rollback_error_wrapped_when_restore_succeeds
    (cfg : BundleCfg) (faults : ReplaceFaults) (src : Path) (fs : FS) (e : JsError)
    (hback : cfg.backup = true)
    (hb : fs.dirs.contains cfg.bundlePath = true)
    (hnofb : fs.files.all (fun f => f.1 != cfg.bundlePath) = true)
    (hd : pathDisjoint cfg.bundlePath cfg.backupPath = true)
    (hkff : fs.filesUnder cfg.backupPath = [])
    (hkfd : fs.dirsUnder cfg.backupPath = [])
    (hpl : faultsPlausible cfg faults fs = true)
    (htry : tryErr cfg faults src fs = some e) :
    (replaceFn cfg faults src fs).2 = some (wrapRollback e) :=
  (replaceFn_rollback_master cfg faults src fs e hback hb hd hkff hkfd hnofb hpl htry).1

namespace C5W

def fsW : FS := ⟨[[], ["app"]], [(["app", "index"], .raw 1)]⟩

def cfgW : BundleCfg := ⟨["app"], ["app.backup.1"], true, false⟩

def gW : FS :=
  ⟨[[], ["app.backup.1"], ["app"]],
   [(["app.backup.1", "index"], .raw 1), (["app", "partial"], .raw 9)]⟩

def faultsW : ReplaceFaults := ⟨none, none, some (⟨"EBUSY", "busy"⟩, gW), none, none⟩

end C5W

theorem rollback_error_wrapped_witness :
    tryErr C5W.cfgW C5W.faultsW ["tmp", "u"] C5W.fsW = some ⟨"EBUSY", "busy"⟩ ∧
    (replaceFn C5W.cfgW C5W.faultsW ["tmp", "u"] C5W.fsW).2 =
      some (wrapRollback ⟨"EBUSY", "busy"⟩) :=
  ⟨by decide,
    rollback_error_wrapped_when_restore_succeeds C5W.cfgW C5W.faultsW ["tmp", "u"]
      C5W.fsW ⟨"EBUSY", "busy"⟩ (by decide) (by decide) (by decide) (by decide)
      (by decide) (by decide) (by decide) (by decide)⟩

namespace C5X

def fsX : FS := ⟨[[], ["app"]], [(["app", "index"], .raw 1)]⟩

def cfgX : BundleCfg := ⟨["app"], ["app.backup.1"], true, false⟩

def gX : FS :=
  ⟨[[], ["app.backup.1"], ["app"]],
   [(["app.backup.1", "index"], .raw 1), (["app", "partial"], .raw 9)]⟩

/-- The install step fails with EBUSY, and the rollback's restore copy fails
with EIO. -/
def faultsX : ReplaceFaults :=
  ⟨none, none, some (⟨"EBUSY", "busy"⟩, gX), none, some (⟨"EIO", "io fail"⟩, gX)⟩

end C5X

/-- C5 counterexample: with a backup taken and the install step failing with
EBUSY, injecting a failure into the rollback's restore copy makes `replace`
raise the restore's own EIO error — not the original error wrapped with the
rollback note, contradicting the claim's "regardless of whether the rollback
restore itself succeeded or failed". -/
theorem rollback_failure_loses_original_error :
    (replaceFn C5X.cfgX C5X.faultsX ["tmp", "u"] C5X.fsX).2 =
      some ⟨"EIO", "io fail"⟩ ∧
    (some (⟨"EIO", "io fail"⟩ : JsError) ≠
      some (wrapRollback ⟨"EBUSY", "busy"⟩)) :=
  ⟨by decide, by decide⟩

/-! ### C8: the removePath retry contract -/

theorem removePathGo_locked (oracle : Nat → RmAttempt) (retries delay : Nat)
    (es : Nat → RmError)
    (hor : ∀ i, oracle i = .fail (es i))
    (hlock : ∀ i, (es i).isLocked = true) :
    ∀ fuel i, i + fuel = retries → 1 ≤ fuel →
    removePathGo oracle retries delay i fuel =
      ⟨some (es (retries - 1)),
       (List.range' (i + 1) (fuel - 1)).map (fun j => delay * j), retries⟩ := by
  intro fuel
  induction fuel with
  | zero =>
    intro i _ h1
    exact absurd h1 (by omega)
  | succ n ih =>
    intro i hi _
    simp only [removePathGo, hor i]
    by_cases hn : n = 0
    · subst hn
      have hie : i = retries - 1 := by omega
      have hguard : ((es i).isLocked && decide (i < retries - 1)) = false := by
        rw [hlock i, Bool.true_and, decide_eq_false (by omega)]
      rw [if_neg (by rw [hguard]; exact Bool.false_ne_true)]
      rw [hie]
      simp
      omega
    · have hguard : ((es i).isLocked && decide (i < retries - 1)) = true := by
        rw [hlock i, Bool.true_and, decide_eq_true (by omega)]
      rw [if_pos hguard]
      rw [ih (i + 1) (by omega) (by omega)]
      have hr : List.range' (i + 1) n = (i + 1) :: List.range' (i + 2) (n - 1) := by
        cases n with
        | zero => exact absurd rfl hn
        | succ m =>
          rw [List.range'_succ]
          simp
      simp only [Nat.succ_sub_one]
      rw [hr, List.map_cons]

/-- C8 (amended): `removePath(target, retries, delay)`.  Already-absent
targets resolve successfully (so a second consecutive call never raises); a
non-transient error surfaces immediately after one try with no sleeps; when
every try raises a transient-lock error, the call makes `retries` tries in
total — i.e. retries up to `retries - 1` times, not `retries` times —
sleeping `delay * attemptIndex` before each retry, and surfaces the last
try's error. -/
theorem removePath_contract_amended :
    (∀ (oracle : Nat → RmAttempt) (retries delay : Nat), oracle 0 = .absent →
      (removePathRun oracle retries delay).result = none) ∧
    (∀ (oracle : Nat → RmAttempt) (retries delay : Nat) (e : RmError),
      1 ≤ retries → oracle 0 = .fail e → e.isLocked = false →
      removePathRun oracle retries delay = ⟨some e, [], 1⟩) ∧
    (∀ (oracle : Nat → RmAttempt) (retries delay : Nat) (es : Nat → RmError),
      1 ≤ retries →
      (∀ i, oracle i = .fail (es i)) → (∀ i, (es i).isLocked = true) →
      removePathRun oracle retries delay =
        ⟨some (es (retries - 1)),
         (List.range' 1 (retries - 1)).map (fun j => delay * j), retries⟩) := by
  refine ⟨?_, ?_, ?_⟩
  · intro oracle retries delay h0
    unfold removePathRun
    cases retries with
    | zero => rfl
    | succ m =>
      simp only [removePathGo, h0]
  · intro oracle retries delay e hr h0 hl
    unfold removePathRun
    cases retries with
    | zero => exact absurd hr (by omega)
    | succ m =>
      simp only [removePathGo, h0]
      rw [if_neg (by rw [hl, Bool.false_and]; exact Bool.false_ne_true)]
  · intro oracle retries delay es hr hor hlock
    unfold removePathRun
    have := removePathGo_locked oracle retries delay es hor hlock retries 0 (by omega) hr
    rw [this]

namespace C8X

/-- The first three tries hit a transient lock; the fourth would succeed. -/
def oracleX : Nat → RmAttempt := fun i => if i < 3 then .fail ⟨"EBUSY", false⟩ else .ok

end C8X

/-- C8 counterexample: with the default `retries = 3` and a target that is
locked for the first three tries but removable on the fourth, `removePath`
surfaces the lock error after 3 total tries and only 2 sleeps — it never
performs the third retry the claim promises, which here would have
succeeded. -/
theorem removePath_retries_capped_at_two :
    removePathRun C8X.oracleX 3 100 =
      ⟨some ⟨"EBUSY", false⟩, [100, 200], 3⟩ ∧
    C8X.oracleX 3 = .ok := by
  constructor
  · rfl
  · rfl

theorem removePath_contract_amended_witness :
    (removePathRun (fun _ => .absent) 3 100).result = none ∧
    removePathRun (fun _ => .fail ⟨"EXDEV", false⟩) 3 100 =
      ⟨some ⟨"EXDEV", false⟩, [], 1⟩ ∧
    removePathRun (fun _ => .fail ⟨"EBUSY", false⟩) 3 100 =
      ⟨some ⟨"EBUSY", false⟩, [100, 200], 3⟩ :=
  ⟨removePath_contract_amended.1 (fun _ => .absent) 3 100 rfl,
   removePath_contract_amended.2.1 (fun _ => .fail ⟨"EXDEV", false⟩) 3 100
     ⟨"EXDEV", false⟩ (by omega) rfl (by decide),
   by
    have := removePath_contract_amended.2.2 (fun _ => .fail ⟨"EBUSY", false⟩) 3 100
      (fun _ => ⟨"EBUSY", false⟩) (by omega) (fun _ => rfl) (fun _ => rfl)
    rw [this]
    rfl⟩

/-! ### C2: selector correctness -/

/-- C2: the entry `checkForUpdate` selects is an entry of maximum `version`
among the enabled entries strictly newer than the current version; when that
set is empty the selection is `none` and the flow reports `no-update`.
Consequently any selected entry is enabled and strictly newer than the
current version. -/
theorem selector_max_version :
    (∀ (updates : List UpdateEntry) (c : Int) (u : UpdateEntry),
      selectUpdate updates c = some u →
      u ∈ updates.filter (eligible c) ∧ u.enable = true ∧ c < u.version ∧
      ∀ e ∈ updates.filter (eligible c), e.version ≤ u.version) ∧
    (∀ (updates : List UpdateEntry) (c : Int),
      selectUpdate updates c = none ↔ updates.filter (eligible c) = []) ∧
    (∀ (cfg : BundleCfg) (opts : CheckOpts) (env : CheckEnv) (fs : FS)
      (updates : List UpdateEntry) (c : Int),
      env.fetch = .ok updates → opts.currentVersion = some c →
      selectUpdate updates c = none →
      (checkForUpdate cfg opts env fs).events = [.noUpdate] ∧
      (checkForUpdate cfg opts env fs).statuses = [.checking, .noUpdate]) := by
  have hmem : ∀ (updates : List UpdateEntry) (c : Int) (e : UpdateEntry),
      e ∈ (updates.filter (eligible c)).insertionSort descVer ↔
      e ∈ updates.filter (eligible c) := by
    intro updates c e
    exact List.mem_insertionSort descVer
  refine ⟨?_, ?_, ?_⟩
  · intro updates c u hsel
    unfold selectUpdate at hsel
    rcases hs : (updates.filter (eligible c)).insertionSort descVer with _ | ⟨x, t⟩
    · rw [hs] at hsel
      exact absurd hsel (by simp)
    · rw [hs] at hsel
      simp only [List.head?_cons] at hsel
      have hux : x = u := Option.some.inj hsel
      subst hux
      have hsorted : List.Sorted descVer (x :: t) := by
        rw [← hs]
        exact List.sorted_insertionSort descVer (updates.filter (eligible c))
      have hxmem : x ∈ updates.filter (eligible c) := by
        rw [← hmem updates c x, hs]
        exact List.mem_cons_self x t
      have helig : eligible c x = true := (List.mem_filter.mp hxmem).2
      simp only [eligible, Bool.and_eq_true, decide_eq_true_eq] at helig
      refine ⟨hxmem, helig.1, helig.2, ?_⟩
      intro e he
      rw [← hmem updates c e, hs] at he
      rcases List.mem_cons.mp he with rfl | he2
      · exact le_refl _
      · exact List.rel_of_sorted_cons hsorted e he2
  · intro updates c
    unfold selectUpdate
    constructor
    · intro h
      have hnil : (updates.filter (eligible c)).insertionSort descVer = [] := by
        rcases hs : (updates.filter (eligible c)).insertionSort descVer with _ | ⟨x, t⟩
        · rfl
        · rw [hs] at h
          exact absurd h (by simp)
      rw [List.eq_nil_iff_forall_not_mem]
      intro e he
      rw [← hmem updates c e, hnil] at he
      exact absurd he (List.not_mem_nil e)
    · intro h
      rw [h]
      rfl
  · intro cfg opts env fs updates c hf hcv hsel
    unfold checkForUpdate
    rw [hf, hcv]
    simp only [Option.getD_some, hsel]
    exact ⟨by trivial, by trivial⟩

theorem selector_max_version_witness :
    selectUpdate [⟨1, true, "u1"⟩, ⟨2, false, "u2"⟩, ⟨3, true, "u3"⟩] 0 =
      some ⟨3, true, "u3"⟩ ∧
    (⟨3, true, "u3"⟩ : UpdateEntry).enable = true ∧ (0 : Int) < 3 ∧
    ∀ e ∈ ([⟨1, true, "u1"⟩, ⟨2, false, "u2"⟩,
        ⟨3, true, "u3"⟩] : List UpdateEntry).filter (eligible 0),
      e.version ≤ 3 :=
  ⟨by rfl,
   (selector_max_version.1 [⟨1, true, "u1"⟩, ⟨2, false, "u2"⟩, ⟨3, true, "u3"⟩] 0
     ⟨3, true, "u3"⟩ (by rfl)).2.1,
   (selector_max_version.1 [⟨1, true, "u1"⟩, ⟨2, false, "u2"⟩, ⟨3, true, "u3"⟩] 0
     ⟨3, true, "u3"⟩ (by rfl)).2.2.1,
   (selector_max_version.1 [⟨1, true, "u1"⟩, ⟨2, false, "u2"⟩, ⟨3, true, "u3"⟩] 0
     ⟨3, true, "u3"⟩ (by rfl)).2.2.2⟩

/-! ### Success-path facts about `replace` -/

theorem any_filter_keep {l : List (Path × FileData)} {r : (Path × FileData) → Bool}
    {q : Path} (h : ∀ f : Path × FileData, (f.1 == q) = true → r f = true) :
    (l.filter r).any (fun f => f.1 == q) = l.any (fun f => f.1 == q) := by
  induction l with
  | nil => rfl
  | cons x xs ih =>
    by_cases hx : (x.1 == q) = true
    · rw [List.filter_cons_of_pos (h x hx), List.any_cons, List.any_cons, hx]
      simp
    · have hx' : (x.1 == q) = false := Bool.eq_false_iff.mpr hx
      by_cases hr : r x = true
      · rw [List.filter_cons_of_pos hr, List.any_cons, List.any_cons, hx', ih]
      · rw [List.filter_cons_of_neg (by simpa using hr), List.any_cons, hx',
          Bool.false_or, ih]

theorem any_beq_false_of_all_pref {l : List (Path × FileData)} {p q : Path}
    (hall : ∀ f ∈ l, p.isPrefixOf f.1 = true) (hq : p.isPrefixOf q = false) :
    l.any (fun f => f.1 == q) = false := by
  rw [List.any_eq_false]
  intro f hf hb
  have := hall f hf
  rw [eq_of_beq hb] at this
  rw [this] at hq
  exact absurd hq (by simp)

/-- Core success-path lemma: from a pre-clear state `fs0` holding the bundle
directory, the source, and (outside the bundle) the original content, the
clear–ensure–install sequence succeeds and installs exactly the re-rooted
source content. -/
theorem replace_success_core (cfg : BundleCfg) (src : Path) (fs0 : FS) (pv : Bool)
    (origFiles : List (Path × FileData)) (origDirs : List Path) (P : Path → Prop)
    (hb0 : fs0.dirs.contains cfg.bundlePath = true)
    (hnofb0 : fs0.files.all (fun f => f.1 != cfg.bundlePath) = true)
    (hsrc0 : fs0.dirs.contains src = true)
    (hdbs : pathDisjoint cfg.bundlePath src = true)
    (hsrcfiles : fs0.files.filter (fun f => src.isPrefixOf f.1) =
      origFiles.filter (fun f => src.isPrefixOf f.1))
    (hany : ∀ q : Path, P q → cfg.bundlePath.isPrefixOf q = false →
      fs0.files.any (fun f => f.1 == q) = origFiles.any (fun f => f.1 == q))
    (hmono : ∀ d : Path, origDirs.contains d = true → fs0.dirs.contains d = true) :
    ((ensureBundle cfg (clearStepFS cfg pv fs0)).copyDir src cfg.bundlePath).2 = none ∧
    ((ensureBundle cfg (clearStepFS cfg pv fs0)).copyDir src
        cfg.bundlePath).1.files.filter (fun f => cfg.bundlePath.isPrefixOf f.1) =
      rerootFiles src cfg.bundlePath origFiles ∧
    ((ensureBundle cfg (clearStepFS cfg pv fs0)).copyDir src
        cfg.bundlePath).1.dirs.contains cfg.bundlePath = true ∧
    (∀ q : Path, P q → cfg.bundlePath.isPrefixOf q = false → src.isPrefixOf q = false →
      ((ensureBundle cfg (clearStepFS cfg pv fs0)).copyDir src
          cfg.bundlePath).1.files.any (fun f => f.1 == q) =
        origFiles.any (fun f => f.1 == q)) ∧
    (∀ d : Path, origDirs.contains d = true → cfg.bundlePath.isPrefixOf d = false →
      ((ensureBundle cfg (clearStepFS cfg pv fs0)).copyDir src
          cfg.bundlePath).1.dirs.contains d = true) := by
  have hbs : cfg.bundlePath.isPrefixOf src = false := by
    simp only [pathDisjoint, Bool.and_eq_true, Bool.not_eq_true'] at hdbs
    exact hdbs.1
  have hsimp : ∀ f : Path × FileData, src.isPrefixOf f.1 = true →
      (!(cfg.bundlePath.isPrefixOf f.1)) = true := by
    intro f hf
    rw [ipo_false_of_disjoint_left hdbs hf]
    rfl
  -- facts about the cleared state fs2
  have hfs2 : ∀ fs2 : FS, fs2 = ensureBundle cfg (clearStepFS cfg pv fs0) →
      fs2.dirs.contains cfg.bundlePath = true ∧
      fs2.files.filter (fun f => cfg.bundlePath.isPrefixOf f.1) = [] ∧
      fs2.files.filter (fun f => src.isPrefixOf f.1) =
        origFiles.filter (fun f => src.isPrefixOf f.1) ∧
      fs2.dirs.contains src = true ∧
      (∀ q : Path, P q → cfg.bundlePath.isPrefixOf q = false →
        fs2.files.any (fun f => f.1 == q) = origFiles.any (fun f => f.1 == q)) ∧
      (∀ d : Path, origDirs.contains d = true → cfg.bundlePath.isPrefixOf d = false →
        fs2.dirs.contains d = true) := by
    intro fs2 hfs2eq
    -- first, the state fsc after the clearing step
    have hfsc : ∀ fsc : FS, fsc = clearStepFS cfg pv fs0 →
        fsc.files.filter (fun f => cfg.bundlePath.isPrefixOf f.1) = [] ∧
        fsc.files.filter (fun f => src.isPrefixOf f.1) =
          origFiles.filter (fun f => src.isPrefixOf f.1) ∧
        fsc.dirs.contains src = true ∧
        (∀ q : Path, P q → cfg.bundlePath.isPrefixOf q = false →
          fsc.files.any (fun f => f.1 == q) = origFiles.any (fun f => f.1 == q)) ∧
        (∀ d : Path, origDirs.contains d = true → cfg.bundlePath.isPrefixOf d = false →
          fsc.dirs.contains d = true) ∧
        fsc.files.all (fun f => f.1 != cfg.bundlePath) = true := by
      intro fsc hfsceq
      unfold clearStepFS at hfsceq
      by_cases hpv : pv = true
      · rw [if_pos hpv] at hfsceq
        unfold FS.clearContents at hfsceq
        rw [if_pos hb0] at hfsceq
        subst hfsceq
        refine ⟨?_, ?_, ?_, ?_, ?_, all_filter_sub hnofb0⟩
        · rw [List.filter_eq_nil_iff]
          intro f hf hpf
          have hin := List.mem_filter.mp hf
          have hne := List.all_eq_true.mp hnofb0 f hin.1
          have hne' : (f.1 != cfg.bundlePath) = true := by simpa using hne
          simp [hpf, hne'] at hin
        · rw [filter_of_imp _ _ _ ?_]
          · exact hsrcfiles
          · intro f hf
            rw [ipo_false_of_disjoint_left hdbs hf]
            rfl
        · refine contains_filter_of_pred hsrc0 ?_
          rw [hbs]
          rfl
        · intro q hPq hq
          rw [any_filter_keep, hany q hPq hq]
          intro f hf
          rw [eq_of_beq hf, hq]
          rfl
        · intro d hd hnd
          refine contains_filter_of_pred (hmono d hd) ?_
          rw [hnd]
          rfl
      · rw [if_neg hpv] at hfsceq
        rw [if_pos (exists_of_contains hb0)] at hfsceq
        have hrm :
            (fs0.rmTree cfg.bundlePath).files.filter
              (fun f => cfg.bundlePath.isPrefixOf f.1) = [] ∧
            (fs0.rmTree cfg.bundlePath).files.filter (fun f => src.isPrefixOf f.1) =
              origFiles.filter (fun f => src.isPrefixOf f.1) ∧
            (fs0.rmTree cfg.bundlePath).dirs.contains src = true ∧
            (∀ q : Path, P q → cfg.bundlePath.isPrefixOf q = false →
              (fs0.rmTree cfg.bundlePath).files.any (fun f => f.1 == q) =
                origFiles.any (fun f => f.1 == q)) ∧
            (∀ d : Path, origDirs.contains d = true →
              cfg.bundlePath.isPrefixOf d = false →
              (fs0.rmTree cfg.bundlePath).dirs.contains d = true) ∧
            (fs0.rmTree cfg.bundlePath).files.all
              (fun f => f.1 != cfg.bundlePath) = true := by
          refine ⟨?_, ?_, ?_, ?_, ?_, all_filter_sub hnofb0⟩
          · rw [rmTree_files, List.filter_eq_nil_iff]
            intro f hf hpf
            have := (List.mem_filter.mp hf).2
            simp [hpf] at this
          · rw [rmTree_files, filter_of_imp _ _ _ hsimp]
            exact hsrcfiles
          · refine contains_filter_of_pred hsrc0 ?_
            rw [hbs]
            rfl
          · intro q hPq hq
            rw [rmTree_files, any_filter_keep, hany q hPq hq]
            intro f hf
            rw [eq_of_beq hf, hq]
            rfl
          · intro d hd hnd
            refine contains_filter_of_pred (hmono d hd) ?_
            rw [hnd]
            rfl
        by_cases hpar : (fs0.rmTree cfg.bundlePath).existsSync cfg.bundlePath.dropLast = true
        · rw [if_pos hpar] at hfsceq
          subst hfsceq
          exact hrm
        · rw [if_neg hpar] at hfsceq
          subst hfsceq
          exact ⟨hrm.1, hrm.2.1, mkdirRec_contains_mono hrm.2.2.1, hrm.2.2.2.1,
            fun d hd hnd => mkdirRec_contains_mono (hrm.2.2.2.2.1 d hd hnd),
            hrm.2.2.2.2.2⟩
    obtain ⟨c1, c2, c3, c4, c5, c6⟩ := hfsc (clearStepFS cfg pv fs0) rfl
    unfold ensureBundle at hfs2eq
    by_cases hex : (clearStepFS cfg pv fs0).existsSync cfg.bundlePath = true
    · rw [if_pos hex] at hfs2eq
      subst hfs2eq
      have hcb : (clearStepFS cfg pv fs0).dirs.contains cfg.bundlePath = true := by
        have : (clearStepFS cfg pv fs0).existsSync cfg.bundlePath =
            (clearStepFS cfg pv fs0).dirs.contains cfg.bundlePath := by
          unfold FS.existsSync
          rw [any_eq_false_of_all_ne c6, Bool.or_false]
        rw [← this]
        exact hex
      exact ⟨hcb, c1, c2, c3, c4, c5⟩
    · rw [if_neg hex] at hfs2eq
      subst hfs2eq
      exact ⟨mkdirRec_contains_self _ _, c1, c2, mkdirRec_contains_mono c3, c4,
        fun d hd hnd => mkdirRec_contains_mono (c5 d hd hnd)⟩
  obtain ⟨f1, f2, f3, f4, f5, f6⟩ := hfs2 (ensureBundle cfg (clearStepFS cfg pv fs0)) rfl
  set fs2 := ensureBundle cfg (clearStepFS cfg pv fs0) with hfs2def
  have hnf : rerootFiles src cfg.bundlePath fs2.files =
      rerootFiles src cfg.bundlePath origFiles := by
    rw [← @rerootFiles_filter_arg src cfg.bundlePath fs2.files, f3,
      rerootFiles_filter_arg]
  unfold FS.copyDir
  rw [if_pos (exists_of_contains f1)]
  simp only [f4, if_true]
  refine ⟨by trivial, ?_, contains_append_left f1, ?_, ?_⟩
  · have hz : (fs2.files.filter
        (fun f => !(rerootFiles src cfg.bundlePath fs2.files).any
          (fun g2 => g2.1 == f.1))).filter
        (fun f => cfg.bundlePath.isPrefixOf f.1) = [] := by
      rw [List.filter_eq_nil_iff]
      intro f hf hpf
      have hmem : f ∈ fs2.files.filter (fun f => cfg.bundlePath.isPrefixOf f.1) :=
        List.mem_filter.mpr ⟨(List.mem_filter.mp hf).1, hpf⟩
      rw [f2] at hmem
      exact absurd hmem (List.not_mem_nil f)
    rw [List.filter_append, hz, List.nil_append, rerootFiles_filter_self, hnf]
  · intro q hPq hqb hqs
    rw [List.any_append]
    have h2 : (rerootFiles src cfg.bundlePath fs2.files).any (fun f => f.1 == q) = false :=
      any_beq_false_of_all_pref (fun f hf => rerootFiles_all_pref f hf) hqb
    rw [h2, Bool.or_false, any_filter_keep, f5 q hPq hqb]
    intro f hf
    have : (rerootFiles src cfg.bundlePath fs2.files).any (fun g2 => g2.1 == f.1) = false := by
      rw [eq_of_beq hf]
      exact h2
    rw [this]
    rfl
  · intro d hd hnd
    exact contains_append_left (f6 d hd hnd)

/-- `replace` succeeds when the bundle directory exists and the source
directory exists disjoint from the bundle and backup paths; it installs
exactly the source's re-rooted files, keeps the bundle directory present,
and leaves every node outside the bundle/backup/source subtrees intact. -/
theorem replaceFn_success (cfg : BundleCfg) (src : Path) (fs : FS)
    (hb : fs.dirs.contains cfg.bundlePath = true)
    (hnofb : fs.files.all (fun f => f.1 != cfg.bundlePath) = true)
    (hsrc : fs.dirs.contains src = true)
    (hdbs : pathDisjoint cfg.bundlePath src = true)
    (hdks : pathDisjoint cfg.backupPath src = true)
    (hd : pathDisjoint cfg.bundlePath cfg.backupPath = true)
    (hkff : fs.files.filter (fun f => cfg.backupPath.isPrefixOf f.1) = [])
    (hkfd : fs.dirs.filter (fun d => cfg.backupPath.isPrefixOf d) = []) :
    (replaceFn cfg noFaults src fs).2 = none ∧
    (replaceFn cfg noFaults src fs).1.files.filter
      (fun f => cfg.bundlePath.isPrefixOf f.1) =
      rerootFiles src cfg.bundlePath fs.files ∧
    (replaceFn cfg noFaults src fs).1.dirs.contains cfg.bundlePath = true ∧
    (∀ q : Path, cfg.backupPath.isPrefixOf q = false →
      cfg.bundlePath.isPrefixOf q = false → src.isPrefixOf q = false →
      (replaceFn cfg noFaults src fs).1.files.any (fun f => f.1 == q) =
        fs.files.any (fun f => f.1 == q)) ∧
    (∀ d : Path, fs.dirs.contains d = true → cfg.bundlePath.isPrefixOf d = false →
      (replaceFn cfg noFaults src fs).1.dirs.contains d = true) := by
  by_cases hbk : cfg.backup = true
  · obtain ⟨hm1, hm2, hm3, hm4, hm5, hm6, hm7⟩ :=
      midClear_facts cfg fs hb hd hkff hkfd hnofb
    have hdks' : cfg.backupPath.isPrefixOf src = false ∧
        src.isPrefixOf cfg.backupPath = false := by
      simp only [pathDisjoint, Bool.and_eq_true, Bool.not_eq_true'] at hdks
      exact hdks
    have hBbsrc : (rerootFiles cfg.bundlePath cfg.backupPath fs.files).filter
        (fun f => src.isPrefixOf f.1) = [] := by
      rw [List.filter_eq_nil_iff]
      intro f hf hpf
      have hk := rerootFiles_all_pref f hf
      rcases ipo_comparable hk hpf with h | h
      · rw [hdks'.1] at h
        exact absurd h (by simp)
      · rw [hdks'.2] at h
        exact absurd h (by simp)
    have hsrcfiles : (replMidClear cfg fs).files.filter (fun f => src.isPrefixOf f.1) =
        fs.files.filter (fun f => src.isPrefixOf f.1) := by
      rw [hm1, List.filter_append, hBbsrc, List.append_nil]
    have hany0 : ∀ q : Path, cfg.backupPath.isPrefixOf q = false →
        cfg.bundlePath.isPrefixOf q = false →
        (replMidClear cfg fs).files.any (fun f => f.1 == q) =
          fs.files.any (fun f => f.1 == q) := by
      intro q hkq _
      rw [hm1, List.any_append,
        any_beq_false_of_all_pref (fun f hf => rerootFiles_all_pref f hf) hkq,
        Bool.or_false]
    obtain ⟨c1, c2, c3, c4, c5⟩ := replace_success_core cfg src (replMidClear cfg fs)
      (preserveOf cfg) fs.files fs.dirs
      (fun q => cfg.backupPath.isPrefixOf q = false)
      hm3 hm5 (hm7 src hsrc) hdbs hsrcfiles hany0 hm7
    rw [replaceFn_reduce cfg noFaults src fs hbk hb hd hkff hkfd hnofb rfl]
    simp only [noFaults]
    rcases hg : (replMidInstall cfg fs).copyDir src cfg.bundlePath with ⟨g2, err2⟩
    have hgeq : (ensureBundle cfg (clearStepFS cfg (preserveOf cfg)
        (replMidClear cfg fs))).copyDir src cfg.bundlePath = (g2, err2) := hg
    rw [hgeq] at c1 c2 c3 c4 c5
    simp only at c1
    subst c1
    exact ⟨rfl, c2, c3, c4, c5⟩
  · have hbf : cfg.backup = false := Bool.eq_false_iff.mpr hbk
    unfold replaceFn
    rw [hbf]
    simp only [Bool.false_and, Bool.false_eq_true, if_false, noFaults]
    obtain ⟨c1, c2, c3, c4, c5⟩ := replace_success_core cfg src fs
      (shouldPreserve cfg fs) fs.files fs.dirs
      (fun q => cfg.backupPath.isPrefixOf q = false)
      hb hnofb hsrc hdbs rfl (fun _ _ _ => rfl) (fun _ hdc => hdc)
    rcases hg : (ensureBundle cfg (clearStepFS cfg (shouldPreserve cfg fs) fs)).copyDir
      src cfg.bundlePath with ⟨g2, err2⟩
    rw [hg] at c1 c2 c3 c4 c5
    simp only at c1
    subst c1
    exact ⟨rfl, c2, c3, c4, c5⟩

/-! ### Facts about the orchestrator's pre-replace steps -/

theorem writeFile_dirs (fs : FS) (p : Path) (d : FileData) :
    (fs.writeFile p d).dirs = fs.dirs := by
  unfold FS.writeFile
  by_cases h : fs.files.any (fun f => f.1 == p) = true
  · rw [if_pos h]
  · rw [if_neg h]

theorem writeFile_filter_pref (fs : FS) (p : Path) (d : FileData) (q : Path)
    (h : q.isPrefixOf p = false) :
    (fs.writeFile p d).files.filter (fun f => q.isPrefixOf f.1) =
      fs.files.filter (fun f => q.isPrefixOf f.1) := by
  unfold FS.writeFile
  by_cases ha : fs.files.any (fun f => f.1 == p) = true
  · rw [if_pos ha]
    simp only
    induction fs.files with
    | nil => rfl
    | cons x xs ih =>
      by_cases hx : (x.1 == p) = true
      · have hxp : x.1 = p := eq_of_beq hx
        rw [List.map_cons, if_pos hx]
        rw [List.filter_cons, List.filter_cons]
        simp only [hxp, h]
        exact ih
      · rw [List.map_cons, if_neg hx, List.filter_cons, List.filter_cons]
        by_cases hq : q.isPrefixOf x.1 = true
        · simp only [hq, ih]

        · simp only [Bool.eq_false_iff.mpr hq, ih]
  · rw [if_neg ha]
    simp only
    rw [List.filter_append, List.filter_cons]
    simp [h]

theorem writeFile_any_ne (fs : FS) (p : Path) (d : FileData) (q : Path)
    (h : p ≠ q) :
    (fs.writeFile p d).files.any (fun f => f.1 == q) =
      fs.files.any (fun f => f.1 == q) := by
  unfold FS.writeFile
  by_cases ha : fs.files.any (fun f => f.1 == p) = true
  · rw [if_pos ha]
    simp only
    induction fs.files with
    | nil => rfl
    | cons x xs ih =>
      by_cases hx : (x.1 == p) = true
      · have hxp : x.1 = p := eq_of_beq hx
        rw [List.map_cons, if_pos hx, List.any_cons, List.any_cons, ih, hxp]
      · rw [List.map_cons, if_neg hx, List.any_cons, List.any_cons, ih]
  · rw [if_neg ha]
    simp only
    rw [List.any_append]
    have : [(p, d)].any (fun f => f.1 == q) = false := by
      simp only [List.any_cons, List.any_nil, Bool.or_false]
      exact beq_eq_false_iff_ne.mpr h
    rw [this, Bool.or_false]

theorem writeFile_any_self (fs : FS) (p : Path) (d : FileData) :
    (fs.writeFile p d).files.any (fun f => f.1 == p) = true := by
  unfold FS.writeFile
  by_cases ha : fs.files.any (fun f => f.1 == p) = true
  · rw [if_pos ha]
    simp only
    rcases List.any_eq_true.mp ha with ⟨f, hf, hfp⟩
    refine List.any_eq_true.mpr ?_
    refine ⟨(p, d), List.mem_map.mpr ⟨f, hf, by rw [if_pos hfp]⟩, by simp⟩
  · rw [if_neg ha]
    simp only
    rw [List.any_append]
    simp

theorem writeFile_all_ne (fs : FS) (p : Path) (d : FileData) (q : Path)
    (hpq : p ≠ q)
    (h : fs.files.all (fun f => f.1 != q) = true) :
    (fs.writeFile p d).files.all (fun f => f.1 != q) = true := by
  unfold FS.writeFile
  by_cases ha : fs.files.any (fun f => f.1 == p) = true
  · rw [if_pos ha]
    simp only
    rw [List.all_eq_true]
    intro f hf
    rcases List.mem_map.mp hf with ⟨g2, hg2, hfg⟩
    by_cases hx : (g2.1 == p) = true
    · rw [if_pos hx] at hfg
      subst hfg
      simpa using hpq
    · rw [if_neg hx] at hfg
      subst hfg
      exact List.all_eq_true.mp h g2 hg2
  · rw [if_neg ha]
    simp only
    rw [List.all_append, h, Bool.true_and, List.all_cons, List.all_nil, Bool.and_true]
    simpa using hpq

theorem rmTree_exists_self (fs : FS) (p : Path) :
    (fs.rmTree p).existsSync p = false := by
  unfold FS.existsSync FS.rmTree
  simp only
  rw [Bool.or_eq_false_iff]
  constructor
  · rw [Bool.eq_false_iff]
    intro hc
    have := (List.mem_filter.mp (contains_iff.mp hc)).2
    rw [ipo_refl p] at this
    exact absurd this (by simp)
  · rw [List.any_eq_false]
    intro f hf hb
    have := (List.mem_filter.mp hf).2
    rw [eq_of_beq hb, ipo_refl p] at this
    exact absurd this (by simp)

theorem rmTree_exists_mono_false (fs : FS) (p q : Path)
    (h : fs.existsSync q = false) : (fs.rmTree p).existsSync q = false := by
  unfold FS.existsSync at h ⊢
  rw [Bool.or_eq_false_iff] at h
  rw [Bool.or_eq_false_iff]
  constructor
  · rw [Bool.eq_false_iff]
    intro hc
    have := (List.mem_filter.mp (contains_iff.mp hc)).1
    rw [contains_iff.mpr this] at h
    exact absurd h.1 (by simp)
  · rw [List.any_eq_false]
    intro f hf hb
    have hm := (List.mem_filter.mp hf).1
    have := List.any_eq_false.mp h.2 f hm
    exact this hb

theorem rmTree_contains_keep (fs : FS) (p d : Path)
    (hc : fs.dirs.contains d = true) (hp : p.isPrefixOf d = false) :
    (fs.rmTree p).dirs.contains d = true := by
  refine contains_filter_of_pred hc ?_
  rw [hp]
  rfl

theorem rmTree_any_keep (fs : FS) (p q : Path) (hp : p.isPrefixOf q = false) :
    (fs.rmTree p).files.any (fun f => f.1 == q) = fs.files.any (fun f => f.1 == q) := by
  rw [rmTree_files, any_filter_keep]
  intro f hf
  rw [eq_of_beq hf, hp]
  rfl

theorem mkdirRec_filter_pref (fs : FS) (p k : Path) (h : k.isPrefixOf p = false) :
    (fs.mkdirRec p).dirs.filter (fun d => k.isPrefixOf d) =
      fs.dirs.filter (fun d => k.isPrefixOf d) := by
  unfold FS.mkdirRec
  simp only
  rw [List.filter_append]
  have : (p.inits.filter (fun q => !fs.dirs.contains q)).filter
      (fun d => k.isPrefixOf d) = [] := by
    rw [List.filter_eq_nil_iff]
    intro q hq hkq
    have hqp : q <+: p := (List.mem_inits q p).mp (List.mem_filter.mp hq).1
    have : k.isPrefixOf p = true := ipo_trans hkq (ipo_iff.mpr hqp)
    rw [h] at this
    exact absurd this (by simp)
  rw [this, List.append_nil]

theorem foldl_preserve {α : Type} (step : FS → α → FS) (l : List α) (Φ : FS → Prop)
    (h : ∀ a ∈ l, ∀ s, Φ s → Φ (step s a)) : ∀ s, Φ s → Φ (l.foldl step s) := by
  induction l with
  | nil => intro s hs; exact hs
  | cons x xs ih =>
    intro s hs
    exact ih (fun a ha s2 hs2 => h a (List.mem_cons_of_mem x ha) s2 hs2) (step s x)
      (h x (List.mem_cons_self x xs) s hs)

/-- Sanity of one orchestrator run: the bundle, backup, zip and unpack paths
are pairwise non-nested, the temporary names are fresh, and the bundle is an
existing directory. -/
def saneEnv (cfg : BundleCfg) (env : CheckEnv) (fs : FS) : Bool :=
  pathDisjoint cfg.bundlePath cfg.backupPath &&
  pathDisjoint cfg.bundlePath env.zipPath &&
  pathDisjoint cfg.bundlePath env.unpackedPath &&
  pathDisjoint cfg.backupPath env.zipPath &&
  pathDisjoint cfg.backupPath env.unpackedPath &&
  pathDisjoint env.zipPath env.unpackedPath &&
  (fs.existsSync env.zipPath == false) &&
  (fs.files.filter (fun f => cfg.backupPath.isPrefixOf f.1) == []) &&
  (fs.dirs.filter (fun d => cfg.backupPath.isPrefixOf d) == []) &&
  fs.dirs.contains cfg.bundlePath &&
  fs.files.all (fun f => f.1 != cfg.bundlePath)

theorem saneEnv_spec {cfg : BundleCfg} {env : CheckEnv} {fs : FS}
    (h : saneEnv cfg env fs = true) :
    pathDisjoint cfg.bundlePath cfg.backupPath = true ∧
    pathDisjoint cfg.bundlePath env.zipPath = true ∧
    pathDisjoint cfg.bundlePath env.unpackedPath = true ∧
    pathDisjoint cfg.backupPath env.zipPath = true ∧
    pathDisjoint cfg.backupPath env.unpackedPath = true ∧
    pathDisjoint env.zipPath env.unpackedPath = true ∧
    fs.existsSync env.zipPath = false ∧
    fs.files.filter (fun f => cfg.backupPath.isPrefixOf f.1) = [] ∧
    fs.dirs.filter (fun d => cfg.backupPath.isPrefixOf d) = [] ∧
    fs.dirs.contains cfg.bundlePath = true ∧
    fs.files.all (fun f => f.1 != cfg.bundlePath) = true := by
  simp only [saneEnv, Bool.and_eq_true, beq_iff_eq] at h
  exact ⟨h.1.1.1.1.1.1.1.1.1.1, h.1.1.1.1.1.1.1.1.1.2, h.1.1.1.1.1.1.1.1.2,
    h.1.1.1.1.1.1.1.2, h.1.1.1.1.1.1.2, h.1.1.1.1.1.2, h.1.1.1.1.2, h.1.1.1.2,
    h.1.1.2, h.1.2, h.2⟩

theorem ne_of_disjoint {p q : Path} (h : pathDisjoint p q = true) : p ≠ q := by
  intro he
  subst he
  simp only [pathDisjoint, Bool.and_eq_true, Bool.not_eq_true'] at h
  rw [ipo_refl p] at h
  exact absurd h.1 (by simp)

theorem pref_append_false {k dest : Path} (hd : pathDisjoint k dest = true) :
    ∀ rel : Path, k.isPrefixOf (dest ++ rel) = false := by
  intro rel
  by_contra hc
  have hk : k.isPrefixOf (dest ++ rel) = true := Bool.of_not_eq_false hc
  rcases ipo_comparable hk (ipo_append dest rel) with h | h
  · simp only [pathDisjoint, Bool.and_eq_true, Bool.not_eq_true'] at hd
    rw [hd.1] at h
    exact absurd h (by simp)
  · simp only [pathDisjoint, Bool.and_eq_true, Bool.not_eq_true'] at hd
    rw [hd.2] at h
    exact absurd h (by simp)

theorem pref_false_dropLast {k p : Path} (h : k.isPrefixOf p = false) :
    k.isPrefixOf p.dropLast = false := by
  by_contra hc
  have := ipo_trans (Bool.of_not_eq_false hc) (ipo_iff.mpr (List.dropLast_prefix p))
  rw [h] at this
  exact absurd this (by simp)

/-- The invariant carried from the start of a run to the state just before
the replacement step. -/
def midInv (cfg : BundleCfg) (env : CheckEnv) (fs s : FS) : Prop :=
  s.dirs.contains cfg.bundlePath = true ∧
  s.files.all (fun f => f.1 != cfg.bundlePath) = true ∧
  s.files.filter (fun f => cfg.backupPath.isPrefixOf f.1) = [] ∧
  s.dirs.filter (fun d => cfg.backupPath.isPrefixOf d) = [] ∧
  s.files.filter (fun f => cfg.bundlePath.isPrefixOf f.1) =
    fs.files.filter (fun f => cfg.bundlePath.isPrefixOf f.1) ∧
  s.files.any (fun f => f.1 == env.zipPath) = true ∧
  s.dirs.contains env.unpackedPath = true

theorem midInv_mkdir {cfg : BundleCfg} {env : CheckEnv} {fs s : FS} (p : Path)
    (hk : cfg.backupPath.isPrefixOf p = false)
    (h : midInv cfg env fs s) : midInv cfg env fs (s.mkdirRec p) := by
  obtain ⟨h1, h2, h3, h4, h5, h6, h7⟩ := h
  exact ⟨mkdirRec_contains_mono h1, h2, h3,
    by rw [mkdirRec_filter_pref _ _ _ hk]; exact h4, h5, h6, mkdirRec_contains_mono h7⟩

theorem midInv_write {cfg : BundleCfg} {env : CheckEnv} {fs s : FS} (p : Path)
    (d : FileData)
    (hkp : cfg.backupPath.isPrefixOf p = false)
    (hbp : cfg.bundlePath.isPrefixOf p = false)
    (hpz : p ≠ env.zipPath)
    (hpb : p ≠ cfg.bundlePath)
    (h : midInv cfg env fs s) : midInv cfg env fs (s.writeFile p d) := by
  obtain ⟨h1, h2, h3, h4, h5, h6, h7⟩ := h
  refine ⟨?_, ?_, ?_, ?_, ?_, ?_, ?_⟩
  · rw [writeFile_dirs]
    exact h1
  · exact writeFile_all_ne s p d _ hpb h2
  · rw [writeFile_filter_pref _ _ _ _ hkp]
    exact h3
  · rw [writeFile_dirs]
    exact h4
  · rw [writeFile_filter_pref _ _ _ _ hbp]
    exact h5
  · rw [writeFile_any_ne _ _ _ _ hpz]
    exact h6
  · rw [writeFile_dirs]
    exact h7

theorem disjoint_parts {p q : Path} (h : pathDisjoint p q = true) :
    p.isPrefixOf q = false ∧ q.isPrefixOf p = false := by
  simp only [pathDisjoint, Bool.and_eq_true, Bool.not_eq_true'] at h
  exact h

/-- Facts about the state after the download and unpack steps succeed. -/
theorem unpackedState_facts (cfg : BundleCfg) (env : CheckEnv) (fs : FS)
    (hsane : saneEnv cfg env fs = true) :
    midInv cfg env fs (unpackedState env fs) := by
  obtain ⟨hd1, hd2, hd3, hd4, hd5, hd6, hzf, hkf, hkd, hb, hnofb⟩ := saneEnv_spec hsane
  have hkdest : ∀ rel : Path, cfg.backupPath.isPrefixOf (env.unpackedPath ++ rel) = false :=
    pref_append_false hd5
  have hbdest : ∀ rel : Path, cfg.bundlePath.isPrefixOf (env.unpackedPath ++ rel) = false :=
    pref_append_false hd3
  have hzdest : ∀ rel : Path, env.unpackedPath ++ rel ≠ env.zipPath := by
    intro rel he
    have := pref_append_false hd6 rel
    rw [he, ipo_refl env.zipPath] at this
    exact absurd this (by simp)
  have hbne : ∀ rel : Path, env.unpackedPath ++ rel ≠ cfg.bundlePath := by
    intro rel he
    have := hbdest rel
    rw [he, ipo_refl cfg.bundlePath] at this
    exact absurd this (by simp)
  have hf1 : (fs.writeFile env.zipPath (.raw env.zipData)).dirs.contains
      cfg.bundlePath = true := by
    rw [writeFile_dirs]
    exact hb
  have hf2 : (fs.writeFile env.zipPath (.raw env.zipData)).files.all
      (fun f => f.1 != cfg.bundlePath) = true :=
    writeFile_all_ne fs _ _ _ (Ne.symm (ne_of_disjoint hd2)) hnofb
  have hf3 : (fs.writeFile env.zipPath (.raw env.zipData)).files.filter
      (fun f => cfg.backupPath.isPrefixOf f.1) = [] := by
    rw [writeFile_filter_pref _ _ _ _ (disjoint_parts hd4).1]
    exact hkf
  have hf4 : (fs.writeFile env.zipPath (.raw env.zipData)).dirs.filter
      (fun d => cfg.backupPath.isPrefixOf d) = [] := by
    rw [writeFile_dirs]
    exact hkd
  have hf5 : (fs.writeFile env.zipPath (.raw env.zipData)).files.filter
      (fun f => cfg.bundlePath.isPrefixOf f.1) =
      fs.files.filter (fun f => cfg.bundlePath.isPrefixOf f.1) :=
    writeFile_filter_pref _ _ _ _ (disjoint_parts hd2).1
  have hf6 : (fs.writeFile env.zipPath (.raw env.zipData)).files.any
      (fun f => f.1 == env.zipPath) = true :=
    writeFile_any_self fs _ _
  -- the six bundle/backup/zip facts survive the optional clearing of dest
  have hS : ∀ s0 : FS,
      s0 = (if (fs.writeFile env.zipPath (.raw env.zipData)).existsSync
          env.unpackedPath then
        (fs.writeFile env.zipPath (.raw env.zipData)).rmTree env.unpackedPath
      else fs.writeFile env.zipPath (.raw env.zipData)) →
      s0.dirs.contains cfg.bundlePath = true ∧
      s0.files.all (fun f => f.1 != cfg.bundlePath) = true ∧
      s0.files.filter (fun f => cfg.backupPath.isPrefixOf f.1) = [] ∧
      s0.dirs.filter (fun d => cfg.backupPath.isPrefixOf d) = [] ∧
      s0.files.filter (fun f => cfg.bundlePath.isPrefixOf f.1) =
        fs.files.filter (fun f => cfg.bundlePath.isPrefixOf f.1) ∧
      s0.files.any (fun f => f.1 == env.zipPath) = true := by
    intro s0 hs0
    by_cases hex : (fs.writeFile env.zipPath (.raw env.zipData)).existsSync
        env.unpackedPath = true
    · rw [if_pos hex] at hs0
      subst hs0
      refine ⟨rmTree_contains_keep _ _ _ hf1 (disjoint_parts hd3).2,
        all_filter_sub hf2, ?_, ?_, ?_, ?_⟩
      · rw [rmTree_files, filter_of_imp]
        · exact hf3
        · intro f hfk
          rw [ipo_false_of_disjoint_left (pathDisjoint_comm hd5) hfk]
          rfl
      · rw [rmTree_dirs, filter_of_imp]
        · exact hf4
        · intro f hfk
          rw [ipo_false_of_disjoint_left (pathDisjoint_comm hd5) hfk]
          rfl
      · rw [rmTree_files, filter_of_imp]
        · exact hf5
        · intro f hfk
          rw [ipo_false_of_disjoint_left (pathDisjoint_comm hd3) hfk]
          rfl
      · rw [rmTree_any_keep _ _ _ (disjoint_parts hd6).2]
        exact hf6
    · rw [if_neg hex] at hs0
      subst hs0
      exact ⟨hf1, hf2, hf3, hf4, hf5, hf6⟩
  obtain ⟨s1, s2, s3, s4, s5, s6⟩ := hS _ rfl
  -- the state after mkdir of the destination satisfies the full invariant
  have B : midInv cfg env fs
      ((if (fs.writeFile env.zipPath (.raw env.zipData)).existsSync
          env.unpackedPath then
        (fs.writeFile env.zipPath (.raw env.zipData)).rmTree env.unpackedPath
      else fs.writeFile env.zipPath (.raw env.zipData)).mkdirRec env.unpackedPath) := by
    refine ⟨mkdirRec_contains_mono s1, s2, s3, ?_, s5, s6, mkdirRec_contains_self _ _⟩
    rw [mkdirRec_filter_pref _ _ _ (disjoint_parts hd5).1]
    exact s4
  -- the invariant is preserved by the extraction folds
  unfold unpackedState applyUnpack
  refine foldl_preserve _ env.unpackFiles (midInv cfg env fs) ?_ _
    (foldl_preserve _ env.unpackDirs (midInv cfg env fs) ?_ _ B)
  · intro a _ s hs
    refine midInv_write (env.unpackedPath ++ a.1) a.2 (hkdest a.1) (hbdest a.1)
      (hzdest a.1) (hbne a.1) ?_
    exact midInv_mkdir (env.unpackedPath ++ a.1).dropLast
      (pref_false_dropLast (hkdest a.1)) hs
  · intro a _ s hs
    exact midInv_mkdir (env.unpackedPath ++ a) (hkdest a) hs

theorem findBundleSource_facts (fs3 : FS) (dest : Path)
    (hdest : fs3.dirs.contains dest = true) :
    fs3.dirs.contains (findBundleSource fs3 dest) = true ∧
    dest.isPrefixOf (findBundleSource fs3 dest) = true := by
  unfold findBundleSource
  rcases hc : childNames fs3 dest with _ | ⟨n, rest⟩
  · exact ⟨hdest, ipo_refl dest⟩
  · rcases rest with _ | ⟨m, r2⟩
    · simp only
      by_cases hcd : fs3.dirs.contains (dest ++ [n]) = true
      · rw [if_pos hcd]
        exact ⟨hcd, ipo_append dest [n]⟩
      · rw [if_neg hcd]
        exact ⟨hdest, ipo_refl dest⟩
    · exact ⟨hdest, ipo_refl dest⟩

theorem disjoint_of_under {p dest src : Path}
    (hd : pathDisjoint p dest = true) (hsrc : dest.isPrefixOf src = true) :
    pathDisjoint p src = true := by
  have hp := disjoint_parts hd
  unfold pathDisjoint
  rw [Bool.and_eq_true]
  constructor
  · rw [Bool.not_eq_true']
    by_contra hc
    have hps : p.isPrefixOf src = true := by
      rcases hq : p.isPrefixOf src with _ | _
      · exact absurd hq hc
      · rfl
    rcases ipo_comparable hps hsrc with h | h
    · rw [hp.1] at h
      exact absurd h (by simp)
    · rw [hp.2] at h
      exact absurd h (by simp)
  · rw [Bool.not_eq_true']
    by_contra hc
    have hsp : src.isPrefixOf p = true := by
      rcases hq : src.isPrefixOf p with _ | _
      · exact absurd hq hc
      · rfl
    have : dest.isPrefixOf p = true := ipo_trans hsrc hsp
    rw [hp.2] at this
    exact absurd this (by simp)

theorem find?_map_overwrite (l : List (Path × FileData)) (p : Path) (d : FileData)
    (ha : l.any (fun f => f.1 == p) = true) :
    (l.map (fun f => if (f.1 == p) = true then (p, d) else f)).find?
      (fun f => f.1 == p) = some (p, d) := by
  induction l with
  | nil => simp at ha
  | cons x xs ih =>
    by_cases hx : (x.1 == p) = true
    · rw [List.map_cons, if_pos hx, List.find?_cons_of_pos _ (by simp)]
    · rw [List.map_cons, if_neg hx, List.find?_cons_of_neg _ (by simpa using hx)]
      refine ih ?_
      simp only [List.any_cons, Bool.eq_false_iff.mpr hx, Bool.false_or] at ha
      exact ha

theorem lookup_writeFile_self (fs : FS) (p : Path) (d : FileData) :
    (fs.writeFile p d).lookupFile p = some d := by
  unfold FS.writeFile FS.lookupFile
  by_cases ha : fs.files.any (fun f => f.1 == p) = true
  · rw [if_pos ha]
    simp only
    rw [find?_map_overwrite fs.files p d ha]
    rfl
  · rw [if_neg ha]
    simp only
    rw [List.find?_append]
    have h1 : fs.files.find? (fun f => f.1 == p) = none := by
      rw [List.find?_eq_none]
      intro f hf hb
      have := List.any_eq_false.mp (Bool.eq_false_iff.mpr ha) f hf
      exact this hb
    rw [h1, Option.none_or, List.find?_cons_of_pos _ (by simp)]
    simp

theorem saveVersion_dirs (fs : FS) (bp : Path) (v : Int) :
    (saveVersion fs bp v).dirs = fs.dirs := by
  unfold saveVersion
  rcases fs.lookupFile (bp ++ ["package.json"]) with _ | d
  · exact writeFile_dirs fs _ _
  · rcases d with n | ⟨o, r⟩
    · exact writeFile_dirs fs _ _
    · exact writeFile_dirs fs _ _

theorem saveVersion_any_ne (fs : FS) (bp : Path) (v : Int) (q : Path)
    (h : bp ++ ["package.json"] ≠ q) :
    (saveVersion fs bp v).files.any (fun f => f.1 == q) =
      fs.files.any (fun f => f.1 == q) := by
  unfold saveVersion
  rcases fs.lookupFile (bp ++ ["package.json"]) with _ | d
  · exact writeFile_any_ne fs _ _ _ h
  · rcases d with n | ⟨o, r⟩
    · exact writeFile_any_ne fs _ _ _ h
    · exact writeFile_any_ne fs _ _ _ h

theorem getSavedVersion_saveVersion (fs : FS) (bp : Path) (v : Int) :
    getSavedVersion (saveVersion fs bp v) bp = v := by
  unfold getSavedVersion saveVersion
  rcases fs.lookupFile (bp ++ ["package.json"]) with _ | d
  · rw [lookup_writeFile_self]
  · rcases d with n | ⟨o, r⟩
    · rw [lookup_writeFile_self]
    · rw [lookup_writeFile_self]

theorem getSavedVersion_rmTree (fs : FS) (bp p : Path)
    (h : p.isPrefixOf (bp ++ ["package.json"]) = false) :
    getSavedVersion (fs.rmTree p) bp = getSavedVersion fs bp := by
  unfold getSavedVersion FS.lookupFile
  rw [rmTree_files, ← find?_filter_aux]
  intro f hf
  rw [eq_of_beq hf, h]
  rfl


/-- C6: on a run of `checkForUpdate` where an update is selected and every
stage succeeds, the status tokens are emitted in exactly the order
checking, update-found, downloading, downloaded, unpacking, unpacked,
replacing, replaced, saving, cleaning, success, restart-needed, and the
update-found callback fires on the selected entry before the success
callback. -/
theorem happy_path_status_order (cfg : BundleCfg) (opts : CheckOpts) (env : CheckEnv)
    (fs : FS) (updates : List UpdateEntry) (u : UpdateEntry)
    (hsane : saneEnv cfg env fs = true)
    (hfetch : env.fetch = .ok updates)
    (hsel : selectUpdate updates
      (opts.currentVersion.getD (getSavedVersion fs cfg.bundlePath)) = some u)
    (hdl : env.downloadFault = none)
    (hun : env.unpackFault = none)
    (hrf : env.faults = noFaults)
    (hcz : env.cleanZipFault = none)
    (hcdf : env.cleanDirFault = none) :
    (checkForUpdate cfg opts env fs).statuses =
      [.checking, .updateFound, .downloading, .downloaded, .unpacking, .unpacked,
       .replacing, .replaced, .saving, .cleaning, .success, .restartNeeded] ∧
    (checkForUpdate cfg opts env fs).events =
      [.updateFound u, .updateSuccess] ++
        (if opts.hasOnNeedRestart then [.needRestart] else []) := by
  obtain ⟨hd1, hd2, hd3, hd4, hd5, hd6, hzf, hkf, hkd, hb, hnofb⟩ := saneEnv_spec hsane
  obtain ⟨m1, m2, m3, m4, m5, m6, m7⟩ := unpackedState_facts cfg env fs hsane
  obtain ⟨fb1, fb2⟩ := findBundleSource_facts (unpackedState env fs) env.unpackedPath m7
  have hdbs : pathDisjoint cfg.bundlePath
      (findBundleSource (unpackedState env fs) env.unpackedPath) = true :=
    disjoint_of_under hd3 fb2
  have hdks : pathDisjoint cfg.backupPath
      (findBundleSource (unpackedState env fs) env.unpackedPath) = true :=
    disjoint_of_under hd5 fb2
  obtain ⟨c1, c2, c3, c4, c5⟩ := replaceFn_success cfg
    (findBundleSource (unpackedState env fs) env.unpackedPath) (unpackedState env fs)
    m1 m2 fb1 hdbs hdks hd1 m3 m4
  unfold checkForUpdate
  rw [hfetch]
  simp only [hsel]
  unfold installPhase
  rw [hdl, hun, hrf]
  simp only
  rcases hrep : replaceFn cfg noFaults
      (findBundleSource (unpackedState env fs) env.unpackedPath)
      (unpackedState env fs) with ⟨fs4, err⟩
  rw [hrep] at c1 c2 c3 c4 c5
  simp only at c1
  subst c1
  simp only
  -- the zip file still exists after the save
  have hsz : (findBundleSource (unpackedState env fs) env.unpackedPath).isPrefixOf
      env.zipPath = false := by
    by_contra hcq
    have hq := Bool.of_not_eq_false hcq
    have : env.unpackedPath.isPrefixOf env.zipPath = true := ipo_trans fb2 hq
    rw [(disjoint_parts hd6).2] at this
    exact absurd this (by simp)
  have hanyz : fs4.files.any (fun f => f.1 == env.zipPath) = true := by
    rw [c4 env.zipPath (disjoint_parts hd4).1 (disjoint_parts hd2).1 hsz]
    exact m6
  have hpjz : cfg.bundlePath ++ ["package.json"] ≠ env.zipPath := by
    intro he
    have := (disjoint_parts hd2).1
    rw [← he, ipo_append cfg.bundlePath ["package.json"]] at this
    exact absurd this (by simp)
  have hexz : (saveVersion fs4 cfg.bundlePath u.version).existsSync env.zipPath = true := by
    unfold FS.existsSync
    rw [saveVersion_any_ne fs4 cfg.bundlePath u.version env.zipPath hpjz, hanyz,
      Bool.or_true]
  rw [if_pos hexz, hcz]
  simp only
  -- the unpacked directory still exists after the zip cleanup
  have hcontd : ((saveVersion fs4 cfg.bundlePath u.version).rmTree
      env.zipPath).dirs.contains env.unpackedPath = true := by
    refine rmTree_contains_keep _ _ _ ?_ (disjoint_parts hd6).1
    rw [saveVersion_dirs]
    exact c5 env.unpackedPath m7 (disjoint_parts hd3).1
  have hexd : ((saveVersion fs4 cfg.bundlePath u.version).rmTree
      env.zipPath).existsSync env.unpackedPath = true := exists_of_contains hcontd
  rw [if_pos hexd, hcdf]
  simp only
  exact ⟨rfl, rfl⟩

namespace C6W

def fsW : FS := ⟨[[], ["app"]], [(["app", "index"], .raw 1)]⟩

def cfgW : BundleCfg := ⟨["app"], ["app.backup.1"], true, false⟩

def envW : CheckEnv :=
  ⟨.ok [⟨1, true, "u1"⟩], ["tmp", "b.zip"], ["tmp", "b"], 0, none, none,
   [], [(["index"], .raw 2)], noFaults, none, none⟩

def optsW : CheckOpts := ⟨some 0, true⟩

end C6W

theorem happy_path_status_order_witness :
    saneEnv C6W.cfgW C6W.envW C6W.fsW = true ∧
    (checkForUpdate C6W.cfgW C6W.optsW C6W.envW C6W.fsW).statuses =
      [.checking, .updateFound, .downloading, .downloaded, .unpacking, .unpacked,
       .replacing, .replaced, .saving, .cleaning, .success, .restartNeeded] ∧
    (checkForUpdate C6W.cfgW C6W.optsW C6W.envW C6W.fsW).events =
      [.updateFound ⟨1, true, "u1"⟩, .updateSuccess] ++
        (if C6W.optsW.hasOnNeedRestart then [.needRestart] else []) :=
  ⟨by decide,
   (happy_path_status_order C6W.cfgW C6W.optsW C6W.envW C6W.fsW [⟨1, true, "u1"⟩]
     ⟨1, true, "u1"⟩ (by decide) (by rfl) (by rfl) (by rfl) (by rfl) (by rfl)
     (by rfl) (by rfl)).1,
   (happy_path_status_order C6W.cfgW C6W.optsW C6W.envW C6W.fsW [⟨1, true, "u1"⟩]
     ⟨1, true, "u1"⟩ (by decide) (by rfl) (by rfl) (by rfl) (by rfl) (by rfl)
     (by rfl) (by rfl)).2⟩


theorem find?_filter_sub {α : Type} (P Q : α → Bool)
    (h : ∀ a, Q a = true → P a = true) (l : List α) :
    (l.filter P).find? Q = l.find? Q := by
  induction l with
  | nil => rfl
  | cons a t ih =>
    rcases hq : Q a with _ | _
    · rcases hp : P a with _ | _
      · rw [List.filter_cons_of_neg (by rw [hp]; exact Bool.false_ne_true),
          List.find?_cons_of_neg _ (by rw [hq]; exact Bool.false_ne_true)]
        exact ih
      · rw [List.filter_cons_of_pos (by rw [hp]),
          List.find?_cons_of_neg _ (by rw [hq]; exact Bool.false_ne_true),
          List.find?_cons_of_neg _ (by rw [hq]; exact Bool.false_ne_true)]
        exact ih
    · have hp := h a hq
      rw [List.filter_cons_of_pos (by rw [hp]),
        List.find?_cons_of_pos _ (by rw [hq]),
        List.find?_cons_of_pos _ (by rw [hq])]

theorem getSavedVersion_of_filter_eq {s t : FS} {bp : Path}
    (h : s.files.filter (fun f => bp.isPrefixOf f.1) =
         t.files.filter (fun f => bp.isPrefixOf f.1)) :
    getSavedVersion s bp = getSavedVersion t bp := by
  have himp : ∀ f : Path × FileData,
      (f.1 == bp ++ ["package.json"]) = true → bp.isPrefixOf f.1 = true := by
    intro f hf
    rw [eq_of_beq hf]
    exact ipo_append bp ["package.json"]
  unfold getSavedVersion FS.lookupFile
  rw [← find?_filter_sub (fun f => bp.isPrefixOf f.1)
        (fun f => f.1 == bp ++ ["package.json"]) himp s.files,
      ← find?_filter_sub (fun f => bp.isPrefixOf f.1)
        (fun f => f.1 == bp ++ ["package.json"]) himp t.files, h]

/-- C3: in a run of `checkForUpdate` that selects an update, the persisted
installed-OTA-version becomes the selected entry's version when the bundle
swap succeeds, and still reads as the prior value after a failed swap (the
save step is never reached, and the rollback leaves the bundle's
`package.json` as it was). -/
theorem version_persistence_gating (cfg : BundleCfg) (opts : CheckOpts) (env : CheckEnv)
    (fs : FS) (updates : List UpdateEntry) (u : UpdateEntry)
    (hsane : saneEnv cfg env fs = true)
    (hfetch : env.fetch = .ok updates)
    (hsel : selectUpdate updates
      (opts.currentVersion.getD (getSavedVersion fs cfg.bundlePath)) = some u)
    (hdl : env.downloadFault = none)
    (hun : env.unpackFault = none) :
    (env.faults = noFaults → env.cleanZipFault = none → env.cleanDirFault = none →
      getSavedVersion (checkForUpdate cfg opts env fs).fs cfg.bundlePath = u.version) ∧
    (∀ e : JsError, cfg.backup = true →
      faultsPlausible cfg env.faults (unpackedState env fs) = true →
      tryErr cfg env.faults
        (findBundleSource (unpackedState env fs) env.unpackedPath)
        (unpackedState env fs) = some e →
      getSavedVersion (checkForUpdate cfg opts env fs).fs cfg.bundlePath =
        getSavedVersion fs cfg.bundlePath) := by
  obtain ⟨hd1, hd2, hd3, hd4, hd5, hd6, hzf, hkf, hkd, hb, hnofb⟩ := saneEnv_spec hsane
  obtain ⟨m1, m2, m3, m4, m5, m6, m7⟩ := unpackedState_facts cfg env fs hsane
  obtain ⟨fb1, fb2⟩ := findBundleSource_facts (unpackedState env fs) env.unpackedPath m7
  have hzb : ∀ rel : Path, env.zipPath.isPrefixOf (cfg.bundlePath ++ rel) = false :=
    pref_append_false (pathDisjoint_comm hd2)
  have hub : ∀ rel : Path, env.unpackedPath.isPrefixOf (cfg.bundlePath ++ rel) = false :=
    pref_append_false (pathDisjoint_comm hd3)
  constructor
  · intro hrf hcz hcdf
    have hdbs : pathDisjoint cfg.bundlePath
        (findBundleSource (unpackedState env fs) env.unpackedPath) = true :=
      disjoint_of_under hd3 fb2
    have hdks : pathDisjoint cfg.backupPath
        (findBundleSource (unpackedState env fs) env.unpackedPath) = true :=
      disjoint_of_under hd5 fb2
    obtain ⟨c1, c2, c3, c4, c5⟩ := replaceFn_success cfg
      (findBundleSource (unpackedState env fs) env.unpackedPath) (unpackedState env fs)
      m1 m2 fb1 hdbs hdks hd1 m3 m4
    unfold checkForUpdate
    rw [hfetch]
    simp only [hsel]
    unfold installPhase
    rw [hdl, hun, hrf]
    simp only
    rcases hrep : replaceFn cfg noFaults
        (findBundleSource (unpackedState env fs) env.unpackedPath)
        (unpackedState env fs) with ⟨fs4, err⟩
    rw [hrep] at c1 c2 c3 c4 c5
    simp only at c1
    subst c1
    simp only
    have hsz : (findBundleSource (unpackedState env fs) env.unpackedPath).isPrefixOf
        env.zipPath = false := by
      by_contra hcq
      have hq := Bool.of_not_eq_false hcq
      have : env.unpackedPath.isPrefixOf env.zipPath = true := ipo_trans fb2 hq
      rw [(disjoint_parts hd6).2] at this
      exact absurd this (by simp)
    have hanyz : fs4.files.any (fun f => f.1 == env.zipPath) = true := by
      rw [c4 env.zipPath (disjoint_parts hd4).1 (disjoint_parts hd2).1 hsz]
      exact m6
    have hpjz : cfg.bundlePath ++ ["package.json"] ≠ env.zipPath := by
      intro he
      have := (disjoint_parts hd2).1
      rw [← he, ipo_append cfg.bundlePath ["package.json"]] at this
      exact absurd this (by simp)
    have hexz : (saveVersion fs4 cfg.bundlePath u.version).existsSync env.zipPath = true := by
      unfold FS.existsSync
      rw [saveVersion_any_ne fs4 cfg.bundlePath u.version env.zipPath hpjz, hanyz,
        Bool.or_true]
    rw [if_pos hexz, hcz]
    simp only
    have hcontd : ((saveVersion fs4 cfg.bundlePath u.version).rmTree
        env.zipPath).dirs.contains env.unpackedPath = true := by
      refine rmTree_contains_keep _ _ _ ?_ (disjoint_parts hd6).1
      rw [saveVersion_dirs]
      exact c5 env.unpackedPath m7 (disjoint_parts hd3).1
    have hexd : ((saveVersion fs4 cfg.bundlePath u.version).rmTree
        env.zipPath).existsSync env.unpackedPath = true := exists_of_contains hcontd
    rw [if_pos hexd, hcdf]
    simp only
    rw [getSavedVersion_rmTree _ _ _ (hub ["package.json"]),
      getSavedVersion_rmTree _ _ _ (hzb ["package.json"]),
      getSavedVersion_saveVersion]
  · intro e hback hpl htry
    obtain ⟨c1, c2, c3⟩ := replaceFn_rollback_master cfg env.faults
      (findBundleSource (unpackedState env fs) env.unpackedPath) (unpackedState env fs)
      e hback m1 hd1 m3 m4 m2 hpl htry
    unfold checkForUpdate
    rw [hfetch]
    simp only [hsel]
    unfold installPhase
    rw [hdl, hun]
    simp only
    rcases hrep : replaceFn cfg env.faults
        (findBundleSource (unpackedState env fs) env.unpackedPath)
        (unpackedState env fs) with ⟨fs4, err⟩
    rw [hrep] at c1 c2 c3
    simp only at c1
    subst c1
    simp only
    have hfilt : fs4.files.filter (fun f => cfg.bundlePath.isPrefixOf f.1) =
        fs.files.filter (fun f => cfg.bundlePath.isPrefixOf f.1) := by
      have : fs4.filesUnder cfg.bundlePath =
          (unpackedState env fs).files.filter (fun f => cfg.bundlePath.isPrefixOf f.1) := c2
      rw [FS.filesUnder] at this
      rw [this, m5]
    unfold cleanupZip
    by_cases hex : fs4.existsSync env.zipPath = true
    · rw [if_pos hex]
      rw [getSavedVersion_rmTree _ _ _ (hzb ["package.json"])]
      exact getSavedVersion_of_filter_eq hfilt
    · rw [if_neg hex]
      exact getSavedVersion_of_filter_eq hfilt

namespace C3W

def fsW : FS := ⟨[[], ["app"]], [(["app", "index"], .raw 1)]⟩

def cfgW : BundleCfg := ⟨["app"], ["app.backup.1"], true, false⟩

def envW : CheckEnv :=
  ⟨.ok [⟨1, true, "u1"⟩], ["tmp", "b.zip"], ["tmp", "b"], 0, none, none,
   [], [(["index"], .raw 2)], noFaults, none, none⟩

def optsW : CheckOpts := ⟨some 0, true⟩

end C3W

theorem version_persistence_gating_witness :
    saneEnv C3W.cfgW C3W.envW C3W.fsW = true ∧
    getSavedVersion (checkForUpdate C3W.cfgW C3W.optsW C3W.envW C3W.fsW).fs
      C3W.cfgW.bundlePath = 1 :=
  ⟨by decide,
   (version_persistence_gating C3W.cfgW C3W.optsW C3W.envW C3W.fsW [⟨1, true, "u1"⟩]
     ⟨1, true, "u1"⟩ (by decide) (by rfl) (by rfl) (by rfl) (by rfl)).1
     (by rfl) (by rfl) (by rfl)⟩


/-- C7: when the manifest fetch returns HTTP 404, `checkForUpdate` terminates
early with status sequence exactly checking, no-update, fires only the
no-update callback, leaves the filesystem untouched, and behaves identically
to a run whose fetch returned an empty manifest. -/
theorem manifest_404_no_update (cfg : BundleCfg) (opts : CheckOpts) (env : CheckEnv)
    (fs : FS) (h404 : env.fetch = .notFound) :
    (checkForUpdate cfg opts env fs).statuses = [.checking, .noUpdate] ∧
    (checkForUpdate cfg opts env fs).events = [.noUpdate] ∧
    (checkForUpdate cfg opts env fs).fs = fs ∧
    (∀ env2 : CheckEnv, env2.fetch = .ok [] →
      checkForUpdate cfg opts env2 fs = checkForUpdate cfg opts env fs) := by
  unfold checkForUpdate
  rw [h404]
  refine ⟨rfl, rfl, rfl, ?_⟩
  intro env2 h2
  rw [h2]
  rfl

namespace C7W

def fsW : FS := ⟨[[], ["app"]], [(["app", "index"], .raw 1)]⟩

def cfgW : BundleCfg := ⟨["app"], ["app.backup.1"], true, false⟩

def envW : CheckEnv :=
  ⟨.notFound, ["tmp", "b.zip"], ["tmp", "b"], 0, none, none,
   [], [], noFaults, none, none⟩

def envW2 : CheckEnv :=
  ⟨.ok [], ["tmp", "b.zip"], ["tmp", "b"], 0, none, none,
   [], [], noFaults, none, none⟩

def optsW : CheckOpts := ⟨some 0, true⟩

end C7W

theorem manifest_404_no_update_witness :
    (checkForUpdate C7W.cfgW C7W.optsW C7W.envW C7W.fsW).statuses =
      [.checking, .noUpdate] ∧
    (checkForUpdate C7W.cfgW C7W.optsW C7W.envW C7W.fsW).events = [.noUpdate] ∧
    (checkForUpdate C7W.cfgW C7W.optsW C7W.envW C7W.fsW).fs = C7W.fsW ∧
    checkForUpdate C7W.cfgW C7W.optsW C7W.envW2 C7W.fsW =
      checkForUpdate C7W.cfgW C7W.optsW C7W.envW C7W.fsW :=
  have h := manifest_404_no_update C7W.cfgW C7W.optsW C7W.envW C7W.fsW (by rfl)
  ⟨h.1, h.2.1, h.2.2.1, h.2.2.2 C7W.envW2 (by rfl)⟩


/-- C10: the source installed by the replacement step is chosen from the
extracted archive root as follows: when the root holds exactly one entry and
that entry is a directory, that directory becomes the source; in every other
case (zero entries, several entries, or a single non-directory entry) the
root itself does; and on a fault-free run the bundle then holds exactly that
source's contents. -/
theorem archive_root_unwrapping (cfg : BundleCfg) (env : CheckEnv) (fs : FS)
    (hsane : saneEnv cfg env fs = true) :
    (∀ n : String,
      childNames (unpackedState env fs) env.unpackedPath = [n] →
      (unpackedState env fs).dirs.contains (env.unpackedPath ++ [n]) = true →
      findBundleSource (unpackedState env fs) env.unpackedPath =
        env.unpackedPath ++ [n]) ∧
    (∀ n : String,
      childNames (unpackedState env fs) env.unpackedPath = [n] →
      (unpackedState env fs).dirs.contains (env.unpackedPath ++ [n]) = false →
      findBundleSource (unpackedState env fs) env.unpackedPath = env.unpackedPath) ∧
    ((childNames (unpackedState env fs) env.unpackedPath).length ≠ 1 →
      findBundleSource (unpackedState env fs) env.unpackedPath = env.unpackedPath) ∧
    (replaceFn cfg noFaults
        (findBundleSource (unpackedState env fs) env.unpackedPath)
        (unpackedState env fs)).1.filesUnder cfg.bundlePath =
      rerootFiles (findBundleSource (unpackedState env fs) env.unpackedPath)
        cfg.bundlePath (unpackedState env fs).files := by
  obtain ⟨hd1, hd2, hd3, hd4, hd5, hd6, hzf, hkf, hkd, hb, hnofb⟩ := saneEnv_spec hsane
  obtain ⟨m1, m2, m3, m4, m5, m6, m7⟩ := unpackedState_facts cfg env fs hsane
  obtain ⟨fb1, fb2⟩ := findBundleSource_facts (unpackedState env fs) env.unpackedPath m7
  refine ⟨?_, ?_, ?_, ?_⟩
  · intro n hc hdir
    simp only [findBundleSource, hc]
    rw [if_pos hdir]
  · intro n hc hdir
    simp only [findBundleSource, hc]
    rw [if_neg (by rw [hdir]; exact Bool.false_ne_true)]
  · intro hlen
    rcases hc : childNames (unpackedState env fs) env.unpackedPath with _ | ⟨n, rest⟩
    · simp only [findBundleSource, hc]
    · rcases rest with _ | ⟨m, r2⟩
      · exact absurd (by rw [hc]; rfl) hlen
      · simp only [findBundleSource, hc]
  · have hdbs : pathDisjoint cfg.bundlePath
        (findBundleSource (unpackedState env fs) env.unpackedPath) = true :=
      disjoint_of_under hd3 fb2
    have hdks : pathDisjoint cfg.backupPath
        (findBundleSource (unpackedState env fs) env.unpackedPath) = true :=
      disjoint_of_under hd5 fb2
    obtain ⟨c1, c2, c3, c4, c5⟩ := replaceFn_success cfg
      (findBundleSource (unpackedState env fs) env.unpackedPath) (unpackedState env fs)
      m1 m2 fb1 hdbs hdks hd1 m3 m4
    rw [FS.filesUnder]
    exact c2

namespace C10W

def fsW : FS := ⟨[[], ["app"]], [(["app", "index"], .raw 1)]⟩

def cfgW : BundleCfg := ⟨["app"], ["app.backup.1"], true, false⟩

def envW : CheckEnv :=
  ⟨.ok [], ["tmp", "b.zip"], ["tmp", "b"], 0, none, none,
   [["appdir"]], [(["appdir", "index"], .raw 7)], noFaults, none, none⟩

end C10W

theorem archive_root_unwrapping_witness :
    saneEnv C10W.cfgW C10W.envW C10W.fsW = true ∧
    childNames (unpackedState C10W.envW C10W.fsW) C10W.envW.unpackedPath = ["appdir"] ∧
    findBundleSource (unpackedState C10W.envW C10W.fsW) C10W.envW.unpackedPath =
      C10W.envW.unpackedPath ++ ["appdir"] ∧
    (replaceFn C10W.cfgW noFaults
        (findBundleSource (unpackedState C10W.envW C10W.fsW) C10W.envW.unpackedPath)
        (unpackedState C10W.envW C10W.fsW)).1.filesUnder C10W.cfgW.bundlePath =
      rerootFiles (findBundleSource (unpackedState C10W.envW C10W.fsW)
          C10W.envW.unpackedPath)
        C10W.cfgW.bundlePath (unpackedState C10W.envW C10W.fsW).files :=
  have h := archive_root_unwrapping C10W.cfgW C10W.envW C10W.fsW (by decide)
  ⟨by decide, by decide, h.1 "appdir" (by decide) (by decide), h.2.2.2⟩


/-- The terminal user callbacks: no-update, success, failure. -/
def isTerminalCb : CbEvent → Bool
  | .noUpdate => true
  | .updateSuccess => true
  | .updateFail _ => true
  | _ => false

theorem countP_term_success (b : Bool) :
    (([CbEvent.updateSuccess] ++ (if b then [CbEvent.needRestart] else [])).countP
      isTerminalCb) = 1 := by
  rcases b with _ | _ <;> rfl

theorem installPhase_counts (cfg : BundleCfg) (opts : CheckOpts) (env : CheckEnv)
    (latest : UpdateEntry) (fs : FS) :
    (installPhase cfg opts env latest fs).events.countP isTerminalCb = 1 ∧
    (installPhase cfg opts env latest fs).statuses.count Status.error ≤ 1 := by
  unfold installPhase
  rcases hdl : env.downloadFault with _ | e1
  · simp only
    rcases hun : env.unpackFault with _ | e2
    · simp only
      rcases hrep : replaceFn cfg env.faults
          (findBundleSource (unpackedState env fs) env.unpackedPath)
          (unpackedState env fs) with ⟨fs4, err⟩
      rcases err with _ | e3
      · simp only
        by_cases hz : (saveVersion fs4 cfg.bundlePath latest.version).existsSync
            env.zipPath = true
        · rw [if_pos hz]
          rcases hcz : env.cleanZipFault with _ | e4
          · simp only
            by_cases hu : ((saveVersion fs4 cfg.bundlePath latest.version).rmTree
                env.zipPath).existsSync env.unpackedPath = true
            · rw [if_pos hu]
              rcases hcd : env.cleanDirFault with _ | e5
              · exact ⟨countP_term_success opts.hasOnNeedRestart, Nat.zero_le 1⟩
              · exact ⟨rfl, Nat.le_of_eq rfl⟩
            · rw [if_neg hu]
              exact ⟨countP_term_success opts.hasOnNeedRestart, Nat.zero_le 1⟩
          · exact ⟨rfl, Nat.le_of_eq rfl⟩
        · rw [if_neg hz]
          by_cases hu : (saveVersion fs4 cfg.bundlePath latest.version).existsSync
              env.unpackedPath = true
          · rw [if_pos hu]
            rcases hcd : env.cleanDirFault with _ | e5
            · exact ⟨countP_term_success opts.hasOnNeedRestart, Nat.zero_le 1⟩
            · exact ⟨rfl, Nat.le_of_eq rfl⟩
          · rw [if_neg hu]
            exact ⟨countP_term_success opts.hasOnNeedRestart, Nat.zero_le 1⟩
      · exact ⟨rfl, Nat.le_of_eq rfl⟩
    · exact ⟨rfl, Nat.le_of_eq rfl⟩
  · exact ⟨rfl, Nat.le_of_eq rfl⟩

/-- C4: every run of `checkForUpdate` invokes exactly one of the no-update,
success and failure callbacks — never zero, never more than one — and a
fatal failure inside the selected-update phase emits at most one `error`
status; but a manifest-fetch failure emits the `error` status twice (once in
the fetch catch, once in the outer catch) rather than once. -/
theorem single_surfacing_amended (cfg : BundleCfg) (opts : CheckOpts) (env : CheckEnv)
    (fs : FS) :
    (checkForUpdate cfg opts env fs).events.countP isTerminalCb = 1 ∧
    (∀ e : JsError, env.fetch = .fail e →
      (checkForUpdate cfg opts env fs).statuses.count Status.error = 2) ∧
    (∀ updates : List UpdateEntry, env.fetch = .ok updates →
      (checkForUpdate cfg opts env fs).statuses.count Status.error ≤ 1) := by
  refine ⟨?_, ?_, ?_⟩
  · unfold checkForUpdate
    rcases hf : env.fetch with updates | _ | e
    · rcases hsel : selectUpdate updates
        (opts.currentVersion.getD (getSavedVersion fs cfg.bundlePath)) with _ | u
      · simp only [hsel]
        rfl
      · simp only [hsel]
        rw [List.countP_append,
          show List.countP isTerminalCb [CbEvent.updateFound u] = 0 from rfl,
          Nat.zero_add]
        exact (installPhase_counts cfg opts env u fs).1
    · rfl
    · rfl
  · intro e hf
    unfold checkForUpdate
    rw [hf]
    rfl
  · intro updates hf
    unfold checkForUpdate
    rw [hf]
    rcases hsel : selectUpdate updates
        (opts.currentVersion.getD (getSavedVersion fs cfg.bundlePath)) with _ | u
    · simp only [hsel]
      exact Nat.zero_le 1
    · simp only [hsel]
      rw [List.count_append,
        show List.count Status.error [Status.checking, Status.updateFound] = 0 from rfl,
        Nat.zero_add]
      exact (installPhase_counts cfg opts env u fs).2

namespace C4W

def fsW : FS := ⟨[[], ["app"]], [(["app", "index"], .raw 1)]⟩

def cfgW : BundleCfg := ⟨["app"], ["app.backup.1"], true, false⟩

def envFailW : CheckEnv :=
  ⟨.fail ⟨"ECONN", "refused"⟩, ["tmp", "b.zip"], ["tmp", "b"], 0, none, none,
   [], [], noFaults, none, none⟩

def envOkW : CheckEnv :=
  ⟨.ok [], ["tmp", "b.zip"], ["tmp", "b"], 0, none, none,
   [], [], noFaults, none, none⟩

def optsW : CheckOpts := ⟨some 0, true⟩

end C4W

theorem single_surfacing_amended_witness :
    (checkForUpdate C4W.cfgW C4W.optsW C4W.envFailW C4W.fsW).events.countP
      isTerminalCb = 1 ∧
    (checkForUpdate C4W.cfgW C4W.optsW C4W.envFailW C4W.fsW).statuses.count
      Status.error = 2 ∧
    (checkForUpdate C4W.cfgW C4W.optsW C4W.envOkW C4W.fsW).statuses.count
      Status.error ≤ 1 :=
  ⟨(single_surfacing_amended C4W.cfgW C4W.optsW C4W.envFailW C4W.fsW).1,
   (single_surfacing_amended C4W.cfgW C4W.optsW C4W.envFailW C4W.fsW).2.1
     ⟨"ECONN", "refused"⟩ (by rfl),
   (single_surfacing_amended C4W.cfgW C4W.optsW C4W.envOkW C4W.fsW).2.2 [] (by rfl)⟩

namespace C4X

def fsX : FS := ⟨[[], ["app"]], [(["app", "index"], .raw 1)]⟩

def cfgX : BundleCfg := ⟨["app"], ["app.backup.1"], true, false⟩

def envX : CheckEnv :=
  ⟨.fail ⟨"ECONN", "refused"⟩, ["tmp", "b.zip"], ["tmp", "b"], 0, none, none,
   [], [], noFaults, none, none⟩

def optsX : CheckOpts := ⟨some 0, true⟩

end C4X

theorem double_error_on_manifest_fetch_failure :
    (checkForUpdate C4X.cfgX C4X.optsX C4X.envX C4X.fsX).statuses.count
      Status.error = 2 ∧
    ¬ (checkForUpdate C4X.cfgX C4X.optsX C4X.envX C4X.fsX).statuses.count
      Status.error ≤ 1 := by
  constructor
  · decide
  · decide


theorem cleanupZip_exists (env : CheckEnv) (g : FS) :
    (cleanupZip env g).existsSync env.zipPath = false := by
  unfold cleanupZip
  by_cases h : g.existsSync env.zipPath = true
  · rw [if_pos h]
    exact rmTree_exists_self g env.zipPath
  · rw [if_neg h]
    exact Bool.eq_false_iff.mpr h

theorem cleanup_seq_exists (g : FS) (zp up : Path) :
    (if (if g.existsSync zp then g.rmTree zp else g).existsSync up
      then (if g.existsSync zp then g.rmTree zp else g).rmTree up
      else (if g.existsSync zp then g.rmTree zp else g)).existsSync zp = false ∧
    (if (if g.existsSync zp then g.rmTree zp else g).existsSync up
      then (if g.existsSync zp then g.rmTree zp else g).rmTree up
      else (if g.existsSync zp then g.rmTree zp else g)).existsSync up = false := by
  have hga : (if g.existsSync zp then g.rmTree zp else g).existsSync zp = false := by
    by_cases h : g.existsSync zp = true
    · rw [if_pos h]
      exact rmTree_exists_self g zp
    · rw [if_neg h]
      exact Bool.eq_false_iff.mpr h
  constructor
  · by_cases h2 : (if g.existsSync zp then g.rmTree zp else g).existsSync up = true
    · rw [if_pos h2]
      exact rmTree_exists_mono_false _ up zp hga
    · rw [if_neg h2]
      exact hga
  · by_cases h2 : (if g.existsSync zp then g.rmTree zp else g).existsSync up = true
    · rw [if_pos h2]
      exact rmTree_exists_self _ up
    · rw [if_neg h2]
      exact Bool.eq_false_iff.mpr h2

/-- C9: `update` removes both temporary artifacts (the downloaded archive and
the unpacked directory) once the unpack step has completed, on success and
failure alike; `checkForUpdate` removes both on its success path; but on a
`checkForUpdate` failure after unpacking, the catch cleans only the archive —
the unpacked directory is left behind. -/
theorem temp_artifact_cleanup_amended (cfg : BundleCfg) (opts : CheckOpts)
    (env : CheckEnv) (fs : FS) (updates : List UpdateEntry) (u : UpdateEntry)
    (hsane : saneEnv cfg env fs = true)
    (hfetch : env.fetch = .ok updates)
    (hsel : selectUpdate updates
      (opts.currentVersion.getD (getSavedVersion fs cfg.bundlePath)) = some u)
    (hdl : env.downloadFault = none)
    (hun : env.unpackFault = none) :
    ((updateRun cfg env fs).1.existsSync env.zipPath = false ∧
     (updateRun cfg env fs).1.existsSync env.unpackedPath = false) ∧
    (env.faults = noFaults → env.cleanZipFault = none → env.cleanDirFault = none →
      (checkForUpdate cfg opts env fs).fs.existsSync env.zipPath = false ∧
      (checkForUpdate cfg opts env fs).fs.existsSync env.unpackedPath = false) ∧
    ((replaceFn cfg env.faults
        (findBundleSource (unpackedState env fs) env.unpackedPath)
        (unpackedState env fs)).2.isSome = true →
      (checkForUpdate cfg opts env fs).fs =
        cleanupZip env (replaceFn cfg env.faults
          (findBundleSource (unpackedState env fs) env.unpackedPath)
          (unpackedState env fs)).1 ∧
      (checkForUpdate cfg opts env fs).fs.existsSync env.zipPath = false) := by
  obtain ⟨hd1, hd2, hd3, hd4, hd5, hd6, hzf, hkf, hkd, hb, hnofb⟩ := saneEnv_spec hsane
  obtain ⟨m1, m2, m3, m4, m5, m6, m7⟩ := unpackedState_facts cfg env fs hsane
  obtain ⟨fb1, fb2⟩ := findBundleSource_facts (unpackedState env fs) env.unpackedPath m7
  refine ⟨?_, ?_, ?_⟩
  · unfold updateRun
    rw [hdl, hun]
    simp only
    rcases hrep : replaceFn cfg env.faults
        (findBundleSource (unpackedState env fs) env.unpackedPath)
        (unpackedState env fs) with ⟨fs4, err⟩
    rcases err with _ | e
    · exact cleanup_seq_exists fs4 env.zipPath env.unpackedPath
    · exact cleanup_seq_exists fs4 env.zipPath env.unpackedPath
  · intro hrf hcz hcdf
    have hdbs : pathDisjoint cfg.bundlePath
        (findBundleSource (unpackedState env fs) env.unpackedPath) = true :=
      disjoint_of_under hd3 fb2
    have hdks : pathDisjoint cfg.backupPath
        (findBundleSource (unpackedState env fs) env.unpackedPath) = true :=
      disjoint_of_under hd5 fb2
    obtain ⟨c1, c2, c3, c4, c5⟩ := replaceFn_success cfg
      (findBundleSource (unpackedState env fs) env.unpackedPath) (unpackedState env fs)
      m1 m2 fb1 hdbs hdks hd1 m3 m4
    unfold checkForUpdate
    rw [hfetch]
    simp only [hsel]
    unfold installPhase
    rw [hdl, hun, hrf]
    simp only
    rcases hrep : replaceFn cfg noFaults
        (findBundleSource (unpackedState env fs) env.unpackedPath)
        (unpackedState env fs) with ⟨fs4, err⟩
    rw [hrep] at c1 c2 c3 c4 c5
    simp only at c1
    subst c1
    simp only
    have hsz : (findBundleSource (unpackedState env fs) env.unpackedPath).isPrefixOf
        env.zipPath = false := by
      by_contra hcq
      have hq := Bool.of_not_eq_false hcq
      have : env.unpackedPath.isPrefixOf env.zipPath = true := ipo_trans fb2 hq
      rw [(disjoint_parts hd6).2] at this
      exact absurd this (by simp)
    have hanyz : fs4.files.any (fun f => f.1 == env.zipPath) = true := by
      rw [c4 env.zipPath (disjoint_parts hd4).1 (disjoint_parts hd2).1 hsz]
      exact m6
    have hpjz : cfg.bundlePath ++ ["package.json"] ≠ env.zipPath := by
      intro he
      have := (disjoint_parts hd2).1
      rw [← he, ipo_append cfg.bundlePath ["package.json"]] at this
      exact absurd this (by simp)
    have hexz : (saveVersion fs4 cfg.bundlePath u.version).existsSync env.zipPath = true := by
      unfold FS.existsSync
      rw [saveVersion_any_ne fs4 cfg.bundlePath u.version env.zipPath hpjz, hanyz,
        Bool.or_true]
    rw [if_pos hexz, hcz]
    simp only
    have hcontd : ((saveVersion fs4 cfg.bundlePath u.version).rmTree
        env.zipPath).dirs.contains env.unpackedPath = true := by
      refine rmTree_contains_keep _ _ _ ?_ (disjoint_parts hd6).1
      rw [saveVersion_dirs]
      exact c5 env.unpackedPath m7 (disjoint_parts hd3).1
    have hexd : ((saveVersion fs4 cfg.bundlePath u.version).rmTree
        env.zipPath).existsSync env.unpackedPath = true := exists_of_contains hcontd
    rw [if_pos hexd, hcdf]
    simp only
    exact ⟨rmTree_exists_mono_false _ env.unpackedPath env.zipPath
        (rmTree_exists_self _ env.zipPath),
      rmTree_exists_self _ env.unpackedPath⟩
  · intro hsome
    unfold checkForUpdate
    rw [hfetch]
    simp only [hsel]
    unfold installPhase
    rw [hdl, hun]
    simp only
    rcases hrep : replaceFn cfg env.faults
        (findBundleSource (unpackedState env fs) env.unpackedPath)
        (unpackedState env fs) with ⟨fs4, err⟩
    rw [hrep] at hsome
    rcases err with _ | e
    · simp at hsome
    · simp only
      refine ⟨?_, cleanupZip_exists env fs4⟩
      trivial

namespace C9W

def fsW : FS := ⟨[[], ["app"]], [(["app", "index"], .raw 1)]⟩

def cfgW : BundleCfg := ⟨["app"], ["app.backup.1"], true, false⟩

def envS : CheckEnv :=
  ⟨.ok [⟨1, true, "u1"⟩], ["tmp", "b.zip"], ["tmp", "b"], 0, none, none,
   [], [(["index"], .raw 2)], noFaults, none, none⟩

def envF : CheckEnv :=
  ⟨.ok [⟨1, true, "u1"⟩], ["tmp", "b.zip"], ["tmp", "b"], 0, none, none,
   [], [(["index"], .raw 2)],
   ⟨none, some (⟨"EBUSY", "busy"⟩, ⟨[], []⟩), none, none, none⟩, none, none⟩

def optsW : CheckOpts := ⟨some 0, true⟩

end C9W

theorem temp_artifact_cleanup_amended_witness :
    ((updateRun C9W.cfgW C9W.envS C9W.fsW).1.existsSync C9W.envS.zipPath = false ∧
     (updateRun C9W.cfgW C9W.envS C9W.fsW).1.existsSync C9W.envS.unpackedPath = false) ∧
    ((checkForUpdate C9W.cfgW C9W.optsW C9W.envS C9W.fsW).fs.existsSync
        C9W.envS.zipPath = false ∧
     (checkForUpdate C9W.cfgW C9W.optsW C9W.envS C9W.fsW).fs.existsSync
        C9W.envS.unpackedPath = false) ∧
    ((checkForUpdate C9W.cfgW C9W.optsW C9W.envF C9W.fsW).fs =
       cleanupZip C9W.envF (replaceFn C9W.cfgW C9W.envF.faults
         (findBundleSource (unpackedState C9W.envF C9W.fsW) C9W.envF.unpackedPath)
         (unpackedState C9W.envF C9W.fsW)).1 ∧
     (checkForUpdate C9W.cfgW C9W.optsW C9W.envF C9W.fsW).fs.existsSync
        C9W.envF.zipPath = false) :=
  ⟨(temp_artifact_cleanup_amended C9W.cfgW C9W.optsW C9W.envS C9W.fsW
      [⟨1, true, "u1"⟩] ⟨1, true, "u1"⟩ (by decide) (by rfl) (by rfl) (by rfl)
      (by rfl)).1,
   (temp_artifact_cleanup_amended C9W.cfgW C9W.optsW C9W.envS C9W.fsW
      [⟨1, true, "u1"⟩] ⟨1, true, "u1"⟩ (by decide) (by rfl) (by rfl) (by rfl)
      (by rfl)).2.1 (by rfl) (by rfl) (by rfl),
   (temp_artifact_cleanup_amended C9W.cfgW C9W.optsW C9W.envF C9W.fsW
      [⟨1, true, "u1"⟩] ⟨1, true, "u1"⟩ (by decide) (by rfl) (by rfl) (by rfl)
      (by rfl)).2.2 (by decide)⟩

namespace C9X

def fsX : FS := ⟨[[], ["app"]], [(["app", "index"], .raw 1)]⟩

def cfgX : BundleCfg := ⟨["app"], ["app.backup.1"], true, false⟩

def env0X : CheckEnv :=
  ⟨.ok [⟨1, true, "u1"⟩], ["tmp", "b.zip"], ["tmp", "b"], 0, none, none,
   [], [(["index"], .raw 2)], noFaults, none, none⟩

def gX : FS := replMidClear cfgX (unpackedState env0X fsX)

def envX : CheckEnv :=
  ⟨.ok [⟨1, true, "u1"⟩], ["tmp", "b.zip"], ["tmp", "b"], 0, none, none,
   [], [(["index"], .raw 2)],
   ⟨none, some (⟨"EBUSY", "busy"⟩, gX), none, none, none⟩, none, none⟩

def envUX : CheckEnv :=
  ⟨.ok [⟨1, true, "u1"⟩], ["tmp", "b.zip"], ["tmp", "b"], 0, none,
   some ⟨"EIO", "bad zip"⟩, [], [], noFaults, none, none⟩

def envCX : CheckEnv :=
  ⟨.ok [⟨1, true, "u1"⟩], ["tmp", "b.zip"], ["tmp", "b"], 0, none, none,
   [], [(["index"], .raw 2)], noFaults, some ⟨"EPERM", "zip locked"⟩, none⟩

def optsX : CheckOpts := ⟨some 0, true⟩

end C9X

theorem unpacked_dir_leaked_on_failure :
    faultsPlausible C9X.cfgX C9X.envX.faults (unpackedState C9X.envX C9X.fsX) = true ∧
    (checkForUpdate C9X.cfgX C9X.optsX C9X.envX C9X.fsX).statuses.contains
      Status.error = true ∧
    (checkForUpdate C9X.cfgX C9X.optsX C9X.envX C9X.fsX).fs.existsSync
      C9X.envX.unpackedPath = true ∧
    (updateRun C9X.cfgX C9X.envUX C9X.fsX).2.isSome = true ∧
    (updateRun C9X.cfgX C9X.envUX C9X.fsX).1.existsSync
      C9X.envUX.unpackedPath = true ∧
    (checkForUpdate C9X.cfgX C9X.optsX C9X.envCX C9X.fsX).statuses.contains
      Status.success = false ∧
    (checkForUpdate C9X.cfgX C9X.optsX C9X.envCX C9X.fsX).statuses.contains
      Status.error = true := by
  refine ⟨by decide, by decide, by decide, by decide, by decide, by decide, by decide⟩

end NwOta
